import Mathlib

/-!
# Verification of the Kerala environmental-CSV preprocessing pipeline

Shallow embedding of `src/Preprocessing/preprocess-master.py`: the masking
step `clean_and_mask` and the three-stage imputation step `impute_data`
(per-grid linear interpolation, per-month seasonal median, global median),
together with the per-table report assembled by `preprocess_file`.

Modelling conventions:
* a pandas cell is `Cell := Option ℚ`; `none` models `NaN` (missing);
* a DataFrame row is `Row` (key fields `grid_id`, `date`, `month` plus the
  named data cells); a DataFrame is a `Table` (a header naming the columns
  present plus the row list);
* `pd.to_numeric(..., errors="coerce")` is the identity here because cells
  are already numeric-or-missing;
* `pd.to_datetime` is not modelled: `date` is an abstract ordinal `Nat`;
* pandas `Series.interpolate(method='linear', limit_direction='both')`
  ignores the index and treats the values as equally spaced: interior gaps
  are filled positionally between the nearest known entries and edge gaps
  are filled with the nearest known value held constant (`interpAt`);
* pandas `median` skips missing values and averages the two middle elements
  of the sorted list for even counts (`median?`);
* `df.sort_values(['grid_id','date'])` is a sort by the lexicographic key
  (`sortRows`); `groupby('grid_id')` on the sorted frame yields the maximal
  runs of equal `grid_id` (`groupRuns`);
* selecting a list of columns `df[cols]` raises `KeyError` when a column is
  absent; fallible steps therefore return `Option` (`preprocess_file`).
-/

/-- One cell of a data column; `none` models pandas `NaN`. -/
abbrev Cell := Option ℚ

/-- One DataFrame row: the key fields used by the pipeline plus the named
data cells (an association list, first binding wins). -/
structure Row where
  grid_id : Nat
  date : Nat
  month : Nat
  cells : List (String × Cell)
deriving DecidableEq

/-- A DataFrame: the columns present (`df.columns`) and the rows. -/
structure Table where
  header : List String
  rows : List Row
deriving DecidableEq

/-- Association-list lookup for a row's cells; an absent key reads as
missing (a well-formed frame has every header column in every row). -/
def cellsLookup : List (String × Cell) → String → Cell
  | [], _ => none
  | (k, v) :: rest, c => if k = c then v else cellsLookup rest c

/-- Read the cell of column `c` in row `r`. -/
def getCell (r : Row) (c : String) : Cell := cellsLookup r.cells c

/-- Replace the binding of key `c` (first occurrence; appended if absent). -/
def cellsSet : List (String × Cell) → String → Cell → List (String × Cell)
  | [], c, v => [(c, v)]
  | (k, w) :: rest, c, v =>
    if k = c then (k, v) :: rest else (k, w) :: cellsSet rest c v

/-- Write the cell of column `c` in row `r`. -/
def setCell (r : Row) (c : String) (v : Cell) : Row :=
  { r with cells := cellsSet r.cells c v }

/-- The column `c` of a row list, as a list of cells (`df[c]`). -/
def colOf (rs : List Row) (c : String) : List Cell :=
  rs.map (fun r => getCell r c)

/-- The cell of column `c` at row position `p` (missing when out of range). -/
def cellAt (rs : List Row) (c : String) (p : Nat) : Cell :=
  match rs[p]? with
  | some r => getCell r c
  | none => none

/-- The non-missing values of a list of cells (pandas `dropna`). -/
def someValues (xs : List Cell) : List ℚ := xs.filterMap id

/-- `df[c].isna().sum()`: the number of missing cells of column `c`. -/
def nanCount (rs : List Row) (c : String) : Nat :=
  (colOf rs c).countP (fun x => x.isNone)

/-- `IMPUTE_COLUMNS` from the source: the five covariate columns. -/
def IMPUTE_COLUMNS : List String :=
  ["lst_celsius", "ndvi", "ndwi", "radar_vh", "rainfall_mm"]

/-- `MIN_VALID_LST` from the source. -/
def MIN_VALID_LST : ℚ := 10

/-- `MAX_VALID_LST` from the source. -/
def MAX_VALID_LST : ℚ := 60

/-- `GEE_UNMASK_VALUE` from the source. -/
def GEE_UNMASK_VALUE : ℚ := -999

/-- The invalid predicate of `clean_and_mask`: for `lst_celsius` a value is
invalid when it equals the sentinel or lies outside `[10, 60]`; for the
other covariates only the sentinel is invalid.  A missing cell is not
invalid (NaN compares false in pandas). -/
def isInvalid (c : String) : Cell → Bool
  | none => false
  | some v =>
    if c = "lst_celsius" then
      decide (v = GEE_UNMASK_VALUE) || decide (v < MIN_VALID_LST)
        || decide (v > MAX_VALID_LST)
    else decide (v = GEE_UNMASK_VALUE)

/-- `series.mask(invalid)`: an invalid cell becomes missing. -/
def maskCell (c : String) (x : Cell) : Cell := if isInvalid c x then none else x

/-- `df[col] = series.mask(invalid)` applied to every row. -/
def maskCol (c : String) (rs : List Row) : List Row :=
  rs.map (fun r => setCell r c (maskCell c (getCell r c)))

/-- `int(invalid.sum())`: how many cells of column `c` are invalid. -/
def maskCount (c : String) (rs : List Row) : Nat :=
  (colOf rs c).countP (isInvalid c)

/-- The `for col in IMPUTE_COLUMNS` loop of `clean_and_mask`: absent
columns are skipped, present ones are masked and their invalid count
recorded in loop order. -/
def maskLoop (header : List String) :
    List String → List Row → List Row × List (String × Nat)
  | [], rs => (rs, [])
  | c :: cs, rs =>
    if c ∈ header then
      let out := maskLoop header cs (maskCol c rs)
      (out.1, (c, maskCount c rs) :: out.2)
    else maskLoop header cs rs

/-- `clean_and_mask` from the source: mask sentinels/outliers in the five
covariate columns and report the per-column masked counts. -/
def clean_and_mask (t : Table) : Table × List (String × Nat) :=
  let out := maskLoop t.header IMPUTE_COLUMNS t.rows
  ({ t with rows := out.1 }, out.2)

/-- The sort key of `df.sort_values(['grid_id', 'date'])`. -/
def rowLe (a b : Row) : Prop :=
  a.grid_id < b.grid_id ∨ (a.grid_id = b.grid_id ∧ a.date ≤ b.date)

instance rowLe.decidableRel : DecidableRel rowLe := fun a b => by
  unfold rowLe; infer_instance

/-- `df.sort_values(['grid_id', 'date'])`: sort the rows by the
lexicographic (grid identifier, date) key. -/
def sortRows (rs : List Row) : List Row := List.insertionSort rowLe rs

/-- `df.groupby('grid_id')` on the sorted frame: the maximal runs of rows
with equal `grid_id`. -/
def groupRuns : List Row → List (List Row)
  | [] => []
  | r :: rs =>
    match groupRuns rs with
    | [] => [[r]]
    | [] :: gs => [r] :: gs
    | (x :: g) :: gs =>
      if r.grid_id = x.grid_id then (r :: x :: g) :: gs
      else [r] :: (x :: g) :: gs

/-- The nearest known entry strictly before position `p` (index and value). -/
def findPrev (xs : List Cell) : Nat → Option (Nat × ℚ)
  | 0 => none
  | p + 1 =>
    match xs[p]? with
    | some (some v) => some (p, v)
    | _ => findPrev xs p

/-- The first known entry of a list of cells (index and value). -/
def firstKnown : List Cell → Option (Nat × ℚ)
  | [] => none
  | none :: l => (firstKnown l).map (fun iv => (iv.1 + 1, iv.2))
  | some v :: _ => some (0, v)

/-- The nearest known entry strictly after position `p` (index and value). -/
def findNext (xs : List Cell) (p : Nat) : Option (Nat × ℚ) :=
  (firstKnown (xs.drop (p + 1))).map (fun iv => (p + 1 + iv.1, iv.2))

/-- `Series.interpolate(method='linear', limit_direction='both')` at one
position: a known value stays; a gap with known entries on both sides is
filled on the straight line between them with the values treated as
equally spaced; a gap with a known entry on one side only takes that value;
an all-missing series stays missing. -/
def interpAt (xs : List Cell) (p : Nat) : Cell :=
  match xs[p]? with
  | some (some v) => some v
  | some none =>
    match findPrev xs p, findNext xs p with
    | some iv, some jw =>
      some (iv.2 + (jw.2 - iv.2) * ((p : ℚ) - (iv.1 : ℚ)) / ((jw.1 : ℚ) - (iv.1 : ℚ)))
    | some iv, none => some iv.2
    | none, some jw => some jw.2
    | none, none => none
  | none => none

/-- `Series.interpolate(method='linear', limit_direction='both')`. -/
def interpolateBoth (xs : List Cell) : List Cell :=
  (List.range xs.length).map (interpAt xs)

/-- Stage 1 applied to one grid group: interpolate the column `c` of the
group and write the result back into the rows. -/
def fillGroup (c : String) (g : List Row) : List Row :=
  List.zipWith (fun r v => setCell r c v) g (interpolateBoth (colOf g c))

/-- Stage 1 of `impute_data`:
`df.groupby('grid_id')[col].transform(lambda x: x.interpolate(...))`. -/
def stage1 (c : String) (rs : List Row) : List Row :=
  (groupRuns rs).flatMap (fillGroup c)

/-- Sort a list of rationals ascending. -/
def sortQ (l : List ℚ) : List ℚ := List.insertionSort (fun a b => a ≤ b) l

/-- pandas `median`: skip-missing midpoint median — the middle element of
the sorted values for odd counts, the average of the two middle elements
for even counts, undefined on the empty list. -/
def median? (l : List ℚ) : Option ℚ :=
  match (sortQ l)[((sortQ l).length - 1) / 2]?, (sortQ l)[(sortQ l).length / 2]? with
  | some a, some b => some ((a + b) / 2)
  | _, _ => none

/-- `Series.fillna` at one cell: keep a known value, else the replacement. -/
def orElseC : Cell → Cell → Cell
  | some v, _ => some v
  | none, y => y

/-- `fillna` of column `c` of row `r` with replacement `repl`. -/
def fillCell (r : Row) (c : String) (repl : Cell) : Row :=
  setCell r c (orElseC (getCell r c) repl)

/-- The non-missing values of column `c` among the rows of month `m`
(the month group of `df.groupby('month')[col]`). -/
def monthVals (rs : List Row) (c : String) (m : Nat) : List ℚ :=
  someValues (colOf (rs.filter (fun r => r.month == m)) c)

/-- Stage 2 of `impute_data`:
`df[col] = df[col].fillna(df.groupby('month')[col].transform('median'))`,
the seasonal medians being computed from the state entering this stage. -/
def stage2 (c : String) (rs : List Row) : List Row :=
  rs.map (fun r => fillCell r c (median? (monthVals rs c r.month)))

/-- Stage 3 of `impute_data`: `df[col] = df[col].fillna(df[col].median())`,
the global median being computed from the state entering this stage. -/
def stage3 (c : String) (rs : List Row) : List Row :=
  rs.map (fun r => fillCell r c (median? (someValues (colOf rs c))))

/-- The whole per-column body of the `impute_data` loop. -/
def imputeCol (c : String) (rs : List Row) : List Row :=
  stage3 c (stage2 c (stage1 c rs))

/-- The `for col in IMPUTE_COLUMNS` loop of `impute_data`: absent columns
are skipped; a present column is imputed in the three stages and
`int(initial_nan - df[col].isna().sum())` recorded in loop order. -/
def imputeLoop (header : List String) :
    List String → List Row → List Row × List (String × Int)
  | [], rs => (rs, [])
  | c :: cs, rs =>
    if c ∈ header then
      let rs2 := imputeCol c rs
      let out := imputeLoop header cs rs2
      (out.1, (c, (nanCount rs c : Int) - (nanCount rs2 c : Int)) :: out.2)
    else imputeLoop header cs rs

/-- `impute_data` from the source: sort by (grid identifier, date), then
impute each present covariate column in three stages. -/
def impute_data (t : Table) : Table × List (String × Int) :=
  let out := imputeLoop t.header IMPUTE_COLUMNS (sortRows t.rows)
  ({ t with rows := out.1 }, out.2)

/-- The per-table summary object built by `preprocess_file`. -/
structure Report where
  total_rows : Nat
  outliers_masked : List (String × Nat)
  values_imputed : List (String × Int)
  final_null_count : List (String × Nat)
deriving DecidableEq

/-- Dictionary lookup in a report mapping. -/
def alookup {β : Type} : List (String × β) → String → Option β
  | [], _ => none
  | (k, v) :: rest, c => if k = c then some v else alookup rest c

/-- `preprocess_file` from the source, per-table core (file I/O elided):
mask, impute, then assemble the summary.  Building `final_null_count`
evaluates `df[IMPUTE_COLUMNS]`, which raises `KeyError` when one of the
five covariate columns is absent from the frame; the `none` result models
that exception. -/
def preprocess_file (t : Table) : Option Report :=
  let masked := clean_and_mask t
  let imputed := impute_data masked.1
  if ∀ c ∈ IMPUTE_COLUMNS, c ∈ imputed.1.header then
    some { total_rows := imputed.1.rows.length
         , outliers_masked := masked.2
         , values_imputed := imputed.2
         , final_null_count :=
             IMPUTE_COLUMNS.map (fun c => (c, nanCount imputed.1.rows c)) }
  else none

/-- The cell of a cell list at position `p` (missing when out of range). -/
def cellAtL (xs : List Cell) (p : Nat) : Cell := (xs[p]?).getD none

instance rowLe.isTotal : IsTotal Row rowLe :=
  ⟨fun a b => by unfold rowLe; omega⟩

instance rowLe.isTrans : IsTrans Row rowLe :=
  ⟨fun a b c hab hbc => by unfold rowLe at *; omega⟩

/-- The preservation relation: a known cell keeps its value. -/
def keepsKnown (x y : Cell) : Prop := ∀ v : ℚ, x = some v → y = some v

/-- The key fields of a row (grid identifier, date, month). -/
def keyOf (r : Row) : Nat × Nat × Nat := (r.grid_id, r.date, r.month)

/-! ## Concrete tables used by the witnesses -/

/-- Witness row 1: month 1, all covariates present, `ndwi` missing. -/
def rowW1 : Row :=
  { grid_id := 1, date := 10, month := 1
  , cells := [("lst_celsius", some 20), ("ndvi", some 1), ("ndwi", none),
              ("radar_vh", some 2), ("rainfall_mm", some 5), ("slope", some 7)] }

/-- Witness row 2: month 2, sentinel in `ndvi`, several gaps. -/
def rowW2 : Row :=
  { grid_id := 1, date := 20, month := 2
  , cells := [("lst_celsius", none), ("ndvi", some (-999)), ("ndwi", none),
              ("radar_vh", some 2), ("rainfall_mm", none), ("slope", some 8)] }

/-- Witness table with all five covariate columns present. -/
def tblW : Table :=
  { header := ["grid_id", "date", "month", "lst_celsius", "ndvi", "ndwi",
               "radar_vh", "rainfall_mm", "slope"]
  , rows := [rowW1, rowW2] }

/-- The report `preprocess_file` produces on `tblW`. -/
def reportW : Report :=
  { total_rows := 2
  , outliers_masked :=
      [("lst_celsius", 0), ("ndvi", 1), ("ndwi", 0), ("radar_vh", 0), ("rainfall_mm", 0)]
  , values_imputed :=
      [("lst_celsius", 1), ("ndvi", 1), ("ndwi", 0), ("radar_vh", 0), ("rainfall_mm", 1)]
  , final_null_count :=
      [("lst_celsius", 0), ("ndvi", 0), ("ndwi", 2), ("radar_vh", 0), ("rainfall_mm", 0)] }

/-- Rows for the C2 witness: a grid with a known January value and a grid
whose series is entirely missing. -/
def rowC2a : Row := { grid_id := 1, date := 10, month := 1, cells := [("lst_celsius", some 18)] }

/-- Second C2 witness row (see `rowC2a`). -/
def rowC2b : Row := { grid_id := 2, date := 10, month := 1, cells := [("lst_celsius", none)] }

/-- Rows for the C2 witness, Stage-3 part: the missing cell's month has no
data at all, so only the global median can fill it. -/
def rowC2c : Row := { grid_id := 1, date := 10, month := 1, cells := [("lst_celsius", none)] }

/-- Second row for the C2 witness, Stage-3 part (see `rowC2c`). -/
def rowC2d : Row := { grid_id := 2, date := 10, month := 2, cells := [("lst_celsius", some 5)] }

/-- A table with only clean values, for the C8 witness. -/
def tblW8 : Table :=
  { header := ["grid_id", "date", "month", "lst_celsius", "ndvi", "ndwi",
               "radar_vh", "rainfall_mm", "slope"]
  , rows := [rowW1] }

/-- A table whose header lacks the covariate `rainfall_mm`. -/
def tblC6 : Table :=
  { header := ["grid_id", "date", "month", "lst_celsius", "ndvi", "ndwi", "radar_vh"]
  , rows := [{ grid_id := 0, date := 0, month := 1
             , cells := [("lst_celsius", some 20), ("ndvi", some 1),
                         ("ndwi", some 1), ("radar_vh", some 2)] }] }

instance ratLeAntisymm : Std.Antisymm (fun x1 x2 : ℚ => x1 ≤ x2) :=
  ⟨fun h1 h2 => le_antisymm h1 h2⟩

/-- The claim's reading of a Stage-1 gap fill, stated from the claim's own
words for refinement comparison (not from the code): the value filled at a
missing position is the linear interpolation between the nearest
non-missing neighbours weighted by DATE differences, i.e. evaluated at the
missing row's date on the line through (date_i, a) and (date_j, b). -/
def timeWeightedFill (g : List Row) (c : String) (p : Nat) : Cell :=
  match findPrev (colOf g c) p, findNext (colOf g c) p with
  | some iv, some jw =>
    match g[iv.1]?, g[p]?, g[jw.1]? with
    | some ri, some rp, some rj =>
      some (iv.2 + (jw.2 - iv.2) * ((rp.date : ℚ) - (ri.date : ℚ)) /
        ((rj.date : ℚ) - (ri.date : ℚ)))
    | _, _, _ => none
  | _, _ => none

/-- First row of the C1 counterexample group (date 0, value 0). -/
def rowX0 : Row := { grid_id := 0, date := 0, month := 1, cells := [("ndvi", some 0)] }

/-- Second row of the C1 counterexample group (date 1, missing). -/
def rowX1 : Row := { grid_id := 0, date := 1, month := 1, cells := [("ndvi", none)] }

/-- Third row of the C1 counterexample group (date 3, value 3). -/
def rowX3 : Row := { grid_id := 0, date := 3, month := 1, cells := [("ndvi", some 3)] }

/-- A one-grid table with unevenly spaced dates 0, 1, 3. -/
def tblX : Table := { header := ["ndvi"], rows := [rowX0, rowX1, rowX3] }

/-- First row of the C1 witness group (date 0, value 20). -/
def rowY0 : Row := { grid_id := 5, date := 0, month := 1, cells := [("ndvi", some 20)] }

/-- Second row of the C1 witness group (date 1, missing). -/
def rowY1 : Row := { grid_id := 5, date := 1, month := 1, cells := [("ndvi", none)] }

/-- Third row of the C1 witness group (date 2, value 24). -/
def rowY2 : Row := { grid_id := 5, date := 2, month := 1, cells := [("ndvi", some 24)] }

/-- A one-grid table with evenly spaced dates for the C1 witness. -/
def tblY : Table := { header := ["ndvi"], rows := [rowY0, rowY1, rowY2] }

/-! ## Basic lemmas about cells, rows and columns -/

theorem cellsLookup_cellsSet_same (l : List (String × Cell)) (c : String) (v : Cell) :
    cellsLookup (cellsSet l c v) c = v := by
  induction l with
  | nil => simp [cellsSet, cellsLookup]
  | cons kv rest ih =>
    obtain ⟨k, w⟩ := kv
    by_cases h : k = c
    · simp [cellsSet, cellsLookup, h]
    · simp [cellsSet, cellsLookup, h, ih]

theorem cellsLookup_cellsSet_other (l : List (String × Cell)) (c c' : String) (v : Cell)
    (h : c' ≠ c) : cellsLookup (cellsSet l c v) c' = cellsLookup l c' := by
  induction l with
  | nil => simp [cellsSet, cellsLookup, Ne.symm h]
  | cons kv rest ih =>
    obtain ⟨k, w⟩ := kv
    by_cases hk : k = c
    · subst hk
      simp [cellsSet, cellsLookup, Ne.symm h]
    · simp [cellsSet, cellsLookup, hk, ih]

theorem getCell_setCell_same (r : Row) (c : String) (v : Cell) :
    getCell (setCell r c v) c = v :=
  cellsLookup_cellsSet_same r.cells c v

theorem getCell_setCell_other (r : Row) (c c' : String) (v : Cell) (h : c' ≠ c) :
    getCell (setCell r c v) c' = getCell r c' :=
  cellsLookup_cellsSet_other r.cells c c' v h

theorem setCell_grid_id (r : Row) (c : String) (v : Cell) :
    (setCell r c v).grid_id = r.grid_id := rfl

theorem setCell_date (r : Row) (c : String) (v : Cell) :
    (setCell r c v).date = r.date := rfl

theorem setCell_month (r : Row) (c : String) (v : Cell) :
    (setCell r c v).month = r.month := rfl

theorem length_colOf (rs : List Row) (c : String) : (colOf rs c).length = rs.length :=
  List.length_map rs _

theorem colOf_getElem? (rs : List Row) (c : String) (p : Nat) :
    (colOf rs c)[p]? = (rs[p]?).map (fun r => getCell r c) :=
  List.getElem?_map _ rs p

theorem cellAt_eq_colOf (rs : List Row) (c : String) (p : Nat) :
    cellAt rs c p = cellAtL (colOf rs c) p := by
  unfold cellAt cellAtL
  rw [colOf_getElem?]
  cases rs[p]? <;> rfl

theorem mem_someValues {xs : List Cell} {v : ℚ} : v ∈ someValues xs ↔ some v ∈ xs := by
  simp [someValues, List.mem_filterMap]

theorem cellAtL_mem {xs : List Cell} {p : Nat} {v : ℚ} (h : cellAtL xs p = some v) :
    some v ∈ xs := by
  unfold cellAtL at h
  cases hx : xs[p]? with
  | none => rw [hx] at h; exact absurd h (by simp)
  | some x => rw [hx] at h; simp at h; exact h ▸ List.getElem?_mem hx

theorem cellAtL_cons_zero (x : Cell) (l : List Cell) : cellAtL (x :: l) 0 = x := by
  simp [cellAtL]

theorem cellAtL_cons_succ (x : Cell) (l : List Cell) (q : Nat) :
    cellAtL (x :: l) (q + 1) = cellAtL l q := by
  simp [cellAtL]

theorem cellAtL_all_none {xs : List Cell} (h : ∀ x ∈ xs, x = none) (q : Nat) :
    cellAtL xs q = none := by
  unfold cellAtL
  cases hx : xs[q]? with
  | none => rfl
  | some x => simpa using h x (List.getElem?_mem hx)

/-! ## Characterization of the interpolation primitives -/

theorem findPrev_eq_some_iff {xs : List Cell} {p i : Nat} {a : ℚ} :
    findPrev xs p = some (i, a) ↔
      i < p ∧ cellAtL xs i = some a ∧ ∀ q, i < q → q < p → cellAtL xs q = none := by
  induction p with
  | zero => simp [findPrev]
  | succ p ih =>
    cases hx : xs[p]? with
    | none =>
      have hcell : cellAtL xs p = none := by simp [cellAtL, hx]
      rw [show findPrev xs (p + 1) = findPrev xs p by rw [findPrev, hx]]
      rw [ih]
      constructor
      · rintro ⟨h1, h2, h3⟩
        refine ⟨by omega, h2, fun q hq hq' => ?_⟩
        rcases Nat.lt_or_ge q p with h | h
        · exact h3 q hq h
        · have : q = p := by omega
          exact this ▸ hcell
      · rintro ⟨h1, h2, h3⟩
        have hip : i ≠ p := fun h => by rw [h, hcell] at h2; exact absurd h2 (by simp)
        exact ⟨by omega, h2, fun q hq hq' => h3 q hq (by omega)⟩
    | some x =>
      cases x with
      | none =>
        have hcell : cellAtL xs p = none := by simp [cellAtL, hx]
        rw [show findPrev xs (p + 1) = findPrev xs p by rw [findPrev, hx]]
        rw [ih]
        constructor
        · rintro ⟨h1, h2, h3⟩
          refine ⟨by omega, h2, fun q hq hq' => ?_⟩
          rcases Nat.lt_or_ge q p with h | h
          · exact h3 q hq h
          · have : q = p := by omega
            exact this ▸ hcell
        · rintro ⟨h1, h2, h3⟩
          have hip : i ≠ p := fun h => by rw [h, hcell] at h2; exact absurd h2 (by simp)
          exact ⟨by omega, h2, fun q hq hq' => h3 q hq (by omega)⟩
      | some v =>
        have hcell : cellAtL xs p = some v := by simp [cellAtL, hx]
        rw [show findPrev xs (p + 1) = some (p, v) by rw [findPrev, hx]]
        constructor
        · intro h
          have h1 : p = i ∧ v = a := by simpa using h
          obtain ⟨rfl, rfl⟩ := h1
          exact ⟨Nat.lt_succ_self _, hcell, fun q hq hq' => by omega⟩
        · rintro ⟨h1, h2, h3⟩
          rcases Nat.lt_or_ge i p with h | h
          · exact absurd hcell (by rw [h3 p h (Nat.lt_succ_self _)]; simp)
          · have : i = p := by omega
            subst this
            rw [hcell] at h2
            simp at h2
            simp [h2]

theorem findPrev_eq_none_iff {xs : List Cell} {p : Nat} :
    findPrev xs p = none ↔ ∀ q, q < p → cellAtL xs q = none := by
  induction p with
  | zero => simp [findPrev]
  | succ p ih =>
    have step : cellAtL xs p = none →
        ((∀ q, q < p → cellAtL xs q = none) ↔ ∀ q, q < p + 1 → cellAtL xs q = none) := by
      intro hcell
      constructor
      · intro h3 q hq
        rcases Nat.lt_or_ge q p with h | h
        · exact h3 q h
        · have : q = p := by omega
          exact this ▸ hcell
      · intro h3 q hq
        exact h3 q (by omega)
    cases hx : xs[p]? with
    | none =>
      have hcell : cellAtL xs p = none := by simp [cellAtL, hx]
      rw [show findPrev xs (p + 1) = findPrev xs p by rw [findPrev, hx]]
      rw [ih]
      exact step hcell
    | some x =>
      cases x with
      | none =>
        have hcell : cellAtL xs p = none := by simp [cellAtL, hx]
        rw [show findPrev xs (p + 1) = findPrev xs p by rw [findPrev, hx]]
        rw [ih]
        exact step hcell
      | some v =>
        have hcell : cellAtL xs p = some v := by simp [cellAtL, hx]
        rw [show findPrev xs (p + 1) = some (p, v) by rw [findPrev, hx]]
        simp only [reduceCtorEq, false_iff, not_forall]
        exact ⟨p, Nat.lt_succ_self _, by rw [hcell]; simp⟩

theorem firstKnown_eq_some_iff {l : List Cell} {i : Nat} {v : ℚ} :
    firstKnown l = some (i, v) ↔
      cellAtL l i = some v ∧ ∀ q, q < i → cellAtL l q = none := by
  induction l generalizing i with
  | nil =>
    simp only [firstKnown, reduceCtorEq, false_iff, not_and]
    intro h
    exact absurd h (by simp [cellAtL])
  | cons x l ih =>
    cases x with
    | none =>
      simp only [firstKnown]
      constructor
      · intro h
        obtain ⟨⟨j, w⟩, hj, heq⟩ := Option.map_eq_some'.mp h
        obtain ⟨rfl, rfl⟩ : j + 1 = i ∧ w = v := by
          simpa using heq
        obtain ⟨h1, h2⟩ := ih.mp hj
        refine ⟨by rwa [cellAtL_cons_succ], fun q hq => ?_⟩
        cases q with
        | zero => exact cellAtL_cons_zero none l
        | succ q => rw [cellAtL_cons_succ]; exact h2 q (by omega)
      · rintro ⟨h1, h2⟩
        cases i with
        | zero => rw [cellAtL_cons_zero] at h1; exact absurd h1 (by simp)
        | succ j =>
          rw [cellAtL_cons_succ] at h1
          have : firstKnown l = some (j, v) :=
            ih.mpr ⟨h1, fun q hq => by
              have := h2 (q + 1) (by omega)
              rwa [cellAtL_cons_succ] at this⟩
          rw [this]
          rfl
    | some w =>
      simp only [firstKnown]
      constructor
      · intro h
        obtain ⟨rfl, rfl⟩ : 0 = i ∧ w = v := by
          simpa [eq_comm] using h
        exact ⟨cellAtL_cons_zero _ l, fun q hq => by omega⟩
      · rintro ⟨h1, h2⟩
        cases i with
        | zero =>
          rw [cellAtL_cons_zero] at h1
          injection h1 with h2
          rw [h2]
        | succ j =>
          have := h2 0 (by omega)
          rw [cellAtL_cons_zero] at this
          exact absurd this (by simp)

theorem firstKnown_eq_none_iff {l : List Cell} :
    firstKnown l = none ↔ ∀ x ∈ l, x = none := by
  induction l with
  | nil => simp [firstKnown]
  | cons x l ih =>
    cases x with
    | none => simp [firstKnown, Option.map_eq_none', ih]
    | some w => simp [firstKnown]

theorem cellAtL_drop (xs : List Cell) (n q : Nat) :
    cellAtL (xs.drop n) q = cellAtL xs (n + q) := by
  simp [cellAtL, List.getElem?_drop]

theorem findNext_eq_some_iff {xs : List Cell} {p j : Nat} {b : ℚ} :
    findNext xs p = some (j, b) ↔
      p < j ∧ cellAtL xs j = some b ∧ ∀ q, p < q → q < j → cellAtL xs q = none := by
  unfold findNext
  constructor
  · intro h
    obtain ⟨⟨k, w⟩, hk, heq⟩ := Option.map_eq_some'.mp h
    obtain ⟨rfl, rfl⟩ : p + 1 + k = j ∧ w = b := by
      simpa using heq
    obtain ⟨h1, h2⟩ := firstKnown_eq_some_iff.mp hk
    rw [cellAtL_drop] at h1
    refine ⟨by omega, h1, fun q hq hq' => ?_⟩
    have := h2 (q - (p + 1)) (by omega)
    rw [cellAtL_drop] at this
    have hq2 : p + 1 + (q - (p + 1)) = q := by omega
    rwa [hq2] at this
  · rintro ⟨h1, h2, h3⟩
    have hk : firstKnown (xs.drop (p + 1)) = some (j - (p + 1), b) := by
      refine firstKnown_eq_some_iff.mpr ⟨?_, fun q hq => ?_⟩
      · rw [cellAtL_drop]
        have : p + 1 + (j - (p + 1)) = j := by omega
        rwa [this]
      · rw [cellAtL_drop]
        exact h3 (p + 1 + q) (by omega) (by omega)
    rw [hk]
    have : p + 1 + (j - (p + 1)) = j := by omega
    simp [this]

theorem findNext_eq_none_iff {xs : List Cell} {p : Nat} :
    findNext xs p = none ↔ ∀ q, p < q → cellAtL xs q = none := by
  unfold findNext
  rw [Option.map_eq_none', firstKnown_eq_none_iff]
  constructor
  · intro h q hq
    rcases Nat.lt_or_ge q xs.length with hlt | hge
    · have hmem : cellAtL (xs.drop (p + 1)) (q - (p + 1)) = none := by
        cases hx : (xs.drop (p + 1))[q - (p + 1)]? with
        | none => simp [cellAtL, hx]
        | some x => simp [cellAtL, hx, h x (List.getElem?_mem hx)]
      rw [cellAtL_drop] at hmem
      have hq2 : p + 1 + (q - (p + 1)) = q := by omega
      rwa [hq2] at hmem
    · simp [cellAtL, List.getElem?_eq_none hge]
  · intro h x hx
    obtain ⟨n, hn⟩ := List.getElem?_of_mem hx
    have : cellAtL (xs.drop (p + 1)) n = x := by simp [cellAtL, hn]
    rw [cellAtL_drop] at this
    rw [← this]
    exact h (p + 1 + n) (by omega)

theorem interpAt_known {xs : List Cell} {p : Nat} {v : ℚ} (h : cellAtL xs p = some v) :
    interpAt xs p = some v := by
  have hx : xs[p]? = some (some v) := by
    unfold cellAtL at h
    cases hx : xs[p]? with
    | none => rw [hx] at h; exact absurd h (by simp)
    | some x => rw [hx] at h; simp at h; rw [h]
  unfold interpAt
  rw [hx]

theorem interpAt_all_none {xs : List Cell} {p : Nat} (h : ∀ x ∈ xs, x = none) :
    interpAt xs p = none := by
  unfold interpAt
  cases hx : xs[p]? with
  | none => rfl
  | some x =>
    have hxn : x = none := h x (List.getElem?_mem hx)
    subst hxn
    have hp : findPrev xs p = none :=
      findPrev_eq_none_iff.mpr fun q _ => cellAtL_all_none h q
    have hn : findNext xs p = none :=
      findNext_eq_none_iff.mpr fun q _ => cellAtL_all_none h q
    rw [hp, hn]

theorem interpAt_isSome {xs : List Cell} {p : Nat} (hp : p < xs.length)
    {w : ℚ} {q : Nat} (hq : cellAtL xs q = some w) : (interpAt xs p).isSome := by
  unfold interpAt
  have hx : xs[p]? = some xs[p] := List.getElem?_eq_getElem hp
  rw [hx]
  cases hxp : xs[p] with
  | some v => simp
  | none =>
    have hqp : q ≠ p := by
      intro h
      rw [h] at hq
      unfold cellAtL at hq
      rw [hx, hxp] at hq
      exact absurd hq (by simp)
    rcases Nat.lt_or_ge q p with hlt | hge
    · have : findPrev xs p ≠ none := by
        intro h0
        rw [findPrev_eq_none_iff] at h0
        exact absurd (h0 q hlt) (by rw [hq]; simp)
      cases hfp : findPrev xs p with
      | none => exact absurd hfp this
      | some iv => cases findNext xs p <;> simp
    · have hgt : p < q := by omega
      have : findNext xs p ≠ none := by
        intro h0
        rw [findNext_eq_none_iff] at h0
        exact absurd (h0 q hgt) (by rw [hq]; simp)
      cases hfn : findNext xs p with
      | none => exact absurd hfn this
      | some jw => cases findPrev xs p <;> simp

theorem lerp_bounds {a b lo hi : ℚ} {i p j : Nat} (hip : i < p) (hpj : p < j)
    (ha1 : lo ≤ a) (ha2 : a ≤ hi) (hb1 : lo ≤ b) (hb2 : b ≤ hi) :
    lo ≤ a + (b - a) * ((p : ℚ) - (i : ℚ)) / ((j : ℚ) - (i : ℚ)) ∧
      a + (b - a) * ((p : ℚ) - (i : ℚ)) / ((j : ℚ) - (i : ℚ)) ≤ hi := by
  have hin : (i : ℚ) < (p : ℚ) := by exact_mod_cast hip
  have hpn : (p : ℚ) < (j : ℚ) := by exact_mod_cast (by omega : p < j)
  have hd : (0 : ℚ) < (j : ℚ) - (i : ℚ) := by linarith
  have hn : (0 : ℚ) < (p : ℚ) - (i : ℚ) := by linarith
  have hnd : (p : ℚ) - (i : ℚ) ≤ (j : ℚ) - (i : ℚ) := by linarith
  have hw0 : (0 : ℚ) ≤ ((p : ℚ) - (i : ℚ)) / ((j : ℚ) - (i : ℚ)) :=
    div_nonneg hn.le hd.le
  have hw1 : ((p : ℚ) - (i : ℚ)) / ((j : ℚ) - (i : ℚ)) ≤ 1 := (div_le_one hd).mpr hnd
  have hv : a + (b - a) * ((p : ℚ) - (i : ℚ)) / ((j : ℚ) - (i : ℚ)) =
      a + (b - a) * (((p : ℚ) - (i : ℚ)) / ((j : ℚ) - (i : ℚ))) := by
    rw [mul_div_assoc]
  rw [hv]
  set w : ℚ := ((p : ℚ) - (i : ℚ)) / ((j : ℚ) - (i : ℚ)) with hwdef
  constructor
  · nlinarith [mul_nonneg (by linarith : (0 : ℚ) ≤ a - lo) (by linarith : (0 : ℚ) ≤ 1 - w),
      mul_nonneg (by linarith : (0 : ℚ) ≤ b - lo) hw0]
  · nlinarith [mul_nonneg (by linarith : (0 : ℚ) ≤ hi - a) (by linarith : (0 : ℚ) ≤ 1 - w),
      mul_nonneg (by linarith : (0 : ℚ) ≤ hi - b) hw0]

theorem interpAt_bounds {xs : List Cell} {p : Nat} {lo hi v : ℚ}
    (hb : ∀ w ∈ someValues xs, lo ≤ w ∧ w ≤ hi)
    (h : interpAt xs p = some v) : lo ≤ v ∧ v ≤ hi := by
  have hmem : ∀ {q : Nat} {w : ℚ}, cellAtL xs q = some w → lo ≤ w ∧ w ≤ hi := by
    intro q w hq
    exact hb w (mem_someValues.mpr (cellAtL_mem hq))
  unfold interpAt at h
  cases hx : xs[p]? with
  | none => rw [hx] at h; exact absurd h (by simp)
  | some x =>
    rw [hx] at h
    cases x with
    | some u =>
      have : u = v := by simpa using h
      subst this
      exact hmem (show cellAtL xs p = some u by simp [cellAtL, hx])
    | none =>
      cases hfp : findPrev xs p with
      | none =>
        rw [hfp] at h
        cases hfn : findNext xs p with
        | none => rw [hfn] at h; exact absurd h (by simp)
        | some jw =>
          rw [hfn] at h
          obtain ⟨h1, h2, h3⟩ := findNext_eq_some_iff.mp hfn
          have : jw.2 = v := by simpa using h
          exact this ▸ hmem h2
      | some iv =>
        rw [hfp] at h
        obtain ⟨g1, g2, g3⟩ := findPrev_eq_some_iff.mp hfp
        cases hfn : findNext xs p with
        | none =>
          rw [hfn] at h
          have : iv.2 = v := by simpa using h
          exact this ▸ hmem g2
        | some jw =>
          rw [hfn] at h
          obtain ⟨h1, h2, h3⟩ := findNext_eq_some_iff.mp hfn
          have hov := hmem g2
          have how := hmem h2
          have hv : iv.2 + (jw.2 - iv.2) * ((p : ℚ) - (iv.1 : ℚ)) / ((jw.1 : ℚ) - (iv.1 : ℚ)) = v := by
            simpa using h
          rw [← hv]
          exact lerp_bounds g1 h1 hov.1 hov.2 how.1 how.2

theorem length_interpolateBoth (xs : List Cell) :
    (interpolateBoth xs).length = xs.length := by
  simp [interpolateBoth]

theorem interpolateBoth_getElem? {xs : List Cell} {p : Nat} (hp : p < xs.length) :
    (interpolateBoth xs)[p]? = some (interpAt xs p) := by
  unfold interpolateBoth
  rw [List.getElem?_map, List.getElem?_range hp]
  rfl

theorem cellAtL_interpolateBoth {xs : List Cell} {p : Nat} (hp : p < xs.length) :
    cellAtL (interpolateBoth xs) p = interpAt xs p := by
  unfold cellAtL
  rw [interpolateBoth_getElem? hp]
  rfl

theorem mem_interpolateBoth {xs : List Cell} {y : Cell} (hy : y ∈ interpolateBoth xs) :
    ∃ p, p < xs.length ∧ y = interpAt xs p := by
  unfold interpolateBoth at hy
  obtain ⟨p, hp, hpy⟩ := List.mem_map.mp hy
  exact ⟨p, List.mem_range.mp hp, hpy.symm⟩

/-! ## Lemmas about grouping and sorting -/

theorem groupRuns_flatten (rs : List Row) : (groupRuns rs).flatten = rs := by
  induction rs with
  | nil => rfl
  | cons r rs ih =>
    cases hg : groupRuns rs with
    | nil =>
      rw [hg] at ih
      simp only [List.flatten_nil] at ih
      rw [groupRuns, hg]
      simp [← ih]
    | cons g gs =>
      rw [hg] at ih
      cases g with
      | nil =>
        rw [groupRuns, hg]
        simp only [List.flatten_cons, List.nil_append] at ih
        simp [ih]
      | cons x g' =>
        rw [groupRuns, hg]
        dsimp only
        by_cases hid : r.grid_id = x.grid_id
        · rw [if_pos hid]
          simp only [List.flatten_cons] at ih ⊢
          simp [ih]
        · rw [if_neg hid]
          simp only [List.flatten_cons] at ih ⊢
          simp [ih]

theorem groupRuns_grid_eq (rs : List Row) :
    ∀ g ∈ groupRuns rs, ∃ n, ∀ a ∈ g, a.grid_id = n := by
  induction rs with
  | nil => simp [groupRuns]
  | cons r rs ih =>
    intro g hg
    cases hgr : groupRuns rs with
    | nil =>
      rw [groupRuns, hgr] at hg
      simp at hg
      subst hg
      exact ⟨r.grid_id, by simp⟩
    | cons g0 gs =>
      rw [groupRuns, hgr] at hg
      cases g0 with
      | nil =>
        rcases List.mem_cons.mp hg with h | h
        · subst h; exact ⟨r.grid_id, by simp⟩
        · exact ih g (hgr ▸ List.mem_cons_of_mem _ h)
      | cons x g' =>
        dsimp only at hg
        by_cases hid : r.grid_id = x.grid_id
        · rw [if_pos hid] at hg
          rcases List.mem_cons.mp hg with h | h
          · subst h
            obtain ⟨n, hn⟩ := ih (x :: g') (hgr ▸ List.mem_cons_self _ _)
            refine ⟨n, ?_⟩
            intro a ha
            rcases List.mem_cons.mp ha with h | h
            · rw [h, hid]
              exact hn x (List.mem_cons_self _ _)
            · exact hn a h
          · exact ih g (hgr ▸ List.mem_cons_of_mem _ h)
        · rw [if_neg hid] at hg
          rcases List.mem_cons.mp hg with h | h
          · subst h; exact ⟨r.grid_id, by simp⟩
          · exact ih g (hgr ▸ h)

theorem groupRuns_sublist (rs : List Row) : ∀ g ∈ groupRuns rs, g.Sublist rs := by
  induction rs with
  | nil => simp [groupRuns]
  | cons r rs ih =>
    intro g hg
    cases hgr : groupRuns rs with
    | nil =>
      rw [groupRuns, hgr] at hg
      simp at hg
      subst hg
      simp
    | cons g0 gs =>
      rw [groupRuns, hgr] at hg
      cases g0 with
      | nil =>
        rcases List.mem_cons.mp hg with h | h
        · subst h; simp
        · exact (ih g (hgr ▸ List.mem_cons_of_mem _ h)).cons _
      | cons x g' =>
        dsimp only at hg
        by_cases hid : r.grid_id = x.grid_id
        · rw [if_pos hid] at hg
          rcases List.mem_cons.mp hg with h | h
          · subst h
            exact (ih (x :: g') (hgr ▸ List.mem_cons_self _ _)).cons₂ _
          · exact (ih g (hgr ▸ List.mem_cons_of_mem _ h)).cons _
        · rw [if_neg hid] at hg
          rcases List.mem_cons.mp hg with h | h
          · subst h; simp
          · exact (ih g (hgr ▸ h)).cons _


theorem sortRows_perm (rs : List Row) : (sortRows rs).Perm rs :=
  List.perm_insertionSort rowLe rs

theorem sortRows_sorted (rs : List Row) : List.Pairwise rowLe (sortRows rs) :=
  List.sorted_insertionSort rowLe rs

theorem length_sortRows (rs : List Row) : (sortRows rs).length = rs.length :=
  (sortRows_perm rs).length_eq

theorem groupRuns_pairwise_date {rs : List Row} (hs : List.Pairwise rowLe rs) :
    ∀ g ∈ groupRuns rs, List.Pairwise (fun a b => a.date ≤ b.date) g := by
  intro g hg
  have hp : List.Pairwise rowLe g := List.Pairwise.sublist (groupRuns_sublist rs g hg) hs
  obtain ⟨n, hn⟩ := groupRuns_grid_eq rs g hg
  refine List.Pairwise.imp_of_mem ?_ hp
  intro a b ha hb hab
  rcases hab with h | h
  · have h1 := hn a ha
    have h2 := hn b hb
    omega
  · exact h.2

/-! ## Stage 1: column-level description -/

theorem colOf_zipWith_setCell_self (c : String) :
    ∀ (g : List Row) (ys : List Cell), ys.length = g.length →
      colOf (List.zipWith (fun r v => setCell r c v) g ys) c = ys := by
  intro g
  induction g with
  | nil =>
    intro ys h
    simp at h
    simp [h, colOf]
  | cons r g ih =>
    intro ys h
    cases ys with
    | nil => simp at h
    | cons y ys =>
      simp only [List.zipWith_cons_cons, colOf, List.map_cons]
      rw [getCell_setCell_same]
      have := ih ys (by simpa using h)
      simpa [colOf] using this

theorem colOf_zipWith_setCell_other (c c' : String) (h : c' ≠ c) :
    ∀ (g : List Row) (ys : List Cell), ys.length = g.length →
      colOf (List.zipWith (fun r v => setCell r c v) g ys) c' = colOf g c' := by
  intro g
  induction g with
  | nil => intro ys _; simp [colOf]
  | cons r g ih =>
    intro ys hl
    cases ys with
    | nil => simp at hl
    | cons y ys =>
      simp only [List.zipWith_cons_cons, colOf, List.map_cons]
      rw [getCell_setCell_other _ _ _ _ h]
      have := ih ys (by simpa using hl)
      simpa [colOf] using this

theorem length_fillGroup (c : String) (g : List Row) :
    (fillGroup c g).length = g.length := by
  simp [fillGroup, length_interpolateBoth, length_colOf]

theorem colOf_fillGroup_self (c : String) (g : List Row) :
    colOf (fillGroup c g) c = interpolateBoth (colOf g c) :=
  colOf_zipWith_setCell_self c g _
    (by rw [length_interpolateBoth, length_colOf])

theorem colOf_fillGroup_other (c c' : String) (h : c' ≠ c) (g : List Row) :
    colOf (fillGroup c g) c' = colOf g c' :=
  colOf_zipWith_setCell_other c c' h g _
    (by rw [length_interpolateBoth, length_colOf])

theorem colOf_flatMap (L : List (List Row)) (f : List Row → List Row) (c : String) :
    colOf (L.flatMap f) c = L.flatMap (fun g => colOf (f g) c) := by
  simp [colOf, List.map_flatMap]

theorem colOf_eq_flatMap_groupRuns (rs : List Row) (c : String) :
    colOf rs c = (groupRuns rs).flatMap (fun g => colOf g c) := by
  conv_lhs => rw [← groupRuns_flatten rs]
  rw [colOf, List.map_flatten, ← List.flatMap_def]
  rfl

theorem colOf_stage1_self (c : String) (rs : List Row) :
    colOf (stage1 c rs) c =
      (groupRuns rs).flatMap (fun g => interpolateBoth (colOf g c)) := by
  unfold stage1
  rw [colOf_flatMap]
  simp only [colOf_fillGroup_self]

theorem colOf_stage1_other (c c' : String) (h : c' ≠ c) (rs : List Row) :
    colOf (stage1 c rs) c' = colOf rs c' := by
  unfold stage1
  rw [colOf_flatMap]
  simp only [colOf_fillGroup_other c c' h]
  rw [← colOf_eq_flatMap_groupRuns]

theorem length_stage1 (c : String) (rs : List Row) :
    (stage1 c rs).length = rs.length := by
  have h1 := congrArg List.length (colOf_stage1_self c rs)
  have h2 := congrArg List.length (colOf_eq_flatMap_groupRuns rs c)
  rw [length_colOf] at h1 h2
  rw [List.length_flatMap] at h1 h2
  rw [h1, h2]
  congr 1
  apply List.map_congr_left
  intro g _
  simp [Function.comp, length_interpolateBoth, length_colOf]


theorem forall₂_flatMap {P : Cell → Cell → Prop} (L : List (List Row))
    (f h : List Row → List Cell)
    (H : ∀ g ∈ L, List.Forall₂ P (f g) (h g)) :
    List.Forall₂ P (L.flatMap f) (L.flatMap h) := by
  induction L with
  | nil => exact List.Forall₂.nil
  | cons g L ih =>
    simp only [List.flatMap_cons]
    exact List.rel_append (H g (by simp)) (ih fun g' hg' => H g' (by simp [hg']))

theorem cellAtL_eq_get {l : List Cell} {p : Nat} (h : p < l.length) :
    cellAtL l p = l.get ⟨p, h⟩ := by
  unfold cellAtL
  rw [List.getElem?_eq_getElem h]
  simp [List.get_eq_getElem]

theorem forall₂_interpolateBoth (xs : List Cell) :
    List.Forall₂ keepsKnown xs (interpolateBoth xs) := by
  rw [List.forall₂_iff_get]
  refine ⟨(length_interpolateBoth xs).symm, ?_⟩
  intro i h1 h2 v hv
  have hc : cellAtL xs i = some v := by rw [cellAtL_eq_get h1, hv]
  have hk := interpAt_known hc
  have h3 : cellAtL (interpolateBoth xs) i = interpAt xs i := cellAtL_interpolateBoth h1
  rw [← cellAtL_eq_get h2, h3, hk]

theorem stage1_keepsKnown (c : String) (rs : List Row) :
    List.Forall₂ keepsKnown (colOf rs c) (colOf (stage1 c rs) c) := by
  rw [colOf_stage1_self, colOf_eq_flatMap_groupRuns rs c]
  exact forall₂_flatMap _ _ _ fun g _ => forall₂_interpolateBoth (colOf g c)

theorem cellAt_of_forall₂_keepsKnown {rs1 rs2 : List Row} {c : String}
    (h : List.Forall₂ keepsKnown (colOf rs1 c) (colOf rs2 c))
    {p : Nat} {v : ℚ} (hv : cellAt rs1 c p = some v) : cellAt rs2 c p = some v := by
  rw [cellAt_eq_colOf] at hv ⊢
  obtain ⟨hlen, hget⟩ := List.forall₂_iff_get.mp h
  by_cases hp : p < (colOf rs1 c).length
  · have hp2 : p < (colOf rs2 c).length := by omega
    have := hget p hp hp2 v (by rw [← cellAtL_eq_get hp, hv])
    rw [cellAtL_eq_get hp2, this]
  · rw [cellAtL, List.getElem?_eq_none (by omega)] at hv
    exact absurd hv (by simp)

theorem stage1_all_none {c : String} {rs : List Row}
    (h : ∀ x ∈ colOf rs c, x = none) :
    ∀ x ∈ colOf (stage1 c rs) c, x = none := by
  intro x hx
  rw [colOf_stage1_self] at hx
  obtain ⟨g, hgmem, hxg⟩ := List.mem_flatMap.mp hx
  have hsub : (colOf g c).Sublist (colOf rs c) := by
    rw [colOf, colOf]
    exact (groupRuns_sublist rs g hgmem).map _
  obtain ⟨p, hp, rfl⟩ := mem_interpolateBoth hxg
  exact interpAt_all_none (fun y hy => h y (hsub.mem hy))

theorem stage1_bounds {c : String} {rs : List Row} {lo hi : ℚ}
    (hb : ∀ w ∈ someValues (colOf rs c), lo ≤ w ∧ w ≤ hi) :
    ∀ w ∈ someValues (colOf (stage1 c rs) c), lo ≤ w ∧ w ≤ hi := by
  intro w hw
  rw [mem_someValues] at hw
  rw [colOf_stage1_self] at hw
  obtain ⟨g, hgmem, hxg⟩ := List.mem_flatMap.mp hw
  have hsub : (colOf g c).Sublist (colOf rs c) := by
    rw [colOf, colOf]
    exact (groupRuns_sublist rs g hgmem).map _
  obtain ⟨p, hp, hip⟩ := mem_interpolateBoth hxg
  refine interpAt_bounds (fun u hu => ?_) hip.symm
  exact hb u (mem_someValues.mpr (hsub.mem (mem_someValues.mp hu)))

/-! ## Medians -/

theorem sortQ_perm (l : List ℚ) : (sortQ l).Perm l :=
  List.perm_insertionSort _ l

theorem length_sortQ (l : List ℚ) : (sortQ l).length = l.length :=
  (sortQ_perm l).length_eq

theorem median?_eq_none_iff {l : List ℚ} : median? l = none ↔ l = [] := by
  unfold median?
  constructor
  · intro h
    by_contra hne
    have hlen : 0 < (sortQ l).length := by
      rw [length_sortQ]
      exact List.length_pos.mpr hne
    have h1 : ((sortQ l).length - 1) / 2 < (sortQ l).length := by omega
    have h2 : (sortQ l).length / 2 < (sortQ l).length := Nat.div_lt_self hlen (by omega)
    rw [List.getElem?_eq_getElem h1, List.getElem?_eq_getElem h2] at h
    simp at h
  · intro h
    subst h
    rfl

theorem median?_isSome {l : List ℚ} (h : l ≠ []) : ∃ m, median? l = some m := by
  have : median? l ≠ none := fun h0 => h (median?_eq_none_iff.mp h0)
  exact Option.ne_none_iff_exists'.mp this

theorem median?_bounds {l : List ℚ} {m lo hi : ℚ} (h : median? l = some m)
    (hb : ∀ v ∈ l, lo ≤ v ∧ v ≤ hi) : lo ≤ m ∧ m ≤ hi := by
  unfold median? at h
  cases ha : (sortQ l)[((sortQ l).length - 1) / 2]? with
  | none => rw [ha] at h; simp at h
  | some a =>
    cases hb2 : (sortQ l)[(sortQ l).length / 2]? with
    | none => rw [ha, hb2] at h; simp at h
    | some b =>
      rw [ha, hb2] at h
      have hm : (a + b) / 2 = m := by simpa using h
      have hamem : a ∈ l := (sortQ_perm l).mem_iff.mp (List.getElem?_mem ha)
      have hbmem : b ∈ l := (sortQ_perm l).mem_iff.mp (List.getElem?_mem hb2)
      obtain ⟨ha1, ha2⟩ := hb a hamem
      obtain ⟨hb1, hb2'⟩ := hb b hbmem
      constructor <;> linarith

theorem someValues_eq_nil_iff {xs : List Cell} :
    someValues xs = [] ↔ ∀ x ∈ xs, x = none := by
  constructor
  · intro h x hx
    cases x with
    | none => rfl
    | some v =>
      have : v ∈ someValues xs := mem_someValues.mpr hx
      rw [h] at this
      exact absurd this (List.not_mem_nil v)
  · intro h
    rw [List.eq_nil_iff_forall_not_mem]
    intro v hv
    have := h _ (mem_someValues.mp hv)
    exact absurd this (by simp)

/-! ## Stages 2 and 3: column-level description -/

theorem orElseC_some (v : ℚ) (y : Cell) : orElseC (some v) y = some v := rfl

theorem orElseC_none (y : Cell) : orElseC none y = y := rfl

theorem getCell_fillCell_self (r : Row) (c : String) (repl : Cell) :
    getCell (fillCell r c repl) c = orElseC (getCell r c) repl :=
  getCell_setCell_same r c _

theorem getCell_fillCell_other (r : Row) (c c' : String) (repl : Cell) (h : c' ≠ c) :
    getCell (fillCell r c repl) c' = getCell r c' :=
  getCell_setCell_other r c c' _ h

theorem length_stage2 (c : String) (rs : List Row) : (stage2 c rs).length = rs.length := by
  simp [stage2]

theorem length_stage3 (c : String) (rs : List Row) : (stage3 c rs).length = rs.length := by
  simp [stage3]

theorem colOf_stage2_other (c c' : String) (h : c' ≠ c) (rs : List Row) :
    colOf (stage2 c rs) c' = colOf rs c' := by
  unfold stage2 colOf
  rw [List.map_map]
  apply List.map_congr_left
  intro r _
  exact getCell_fillCell_other r c c' _ h

theorem colOf_stage3_other (c c' : String) (h : c' ≠ c) (rs : List Row) :
    colOf (stage3 c rs) c' = colOf rs c' := by
  unfold stage3 colOf
  rw [List.map_map]
  apply List.map_congr_left
  intro r _
  exact getCell_fillCell_other r c c' _ h

theorem cellAt_stage2 {rs : List Row} {c : String} {p : Nat} {r : Row}
    (hr : rs[p]? = some r) :
    cellAt (stage2 c rs) c p =
      orElseC (getCell r c) (median? (monthVals rs c r.month)) := by
  unfold cellAt stage2
  rw [List.getElem?_map, hr]
  simp [getCell_fillCell_self]

theorem cellAt_stage3 {rs : List Row} {c : String} {p : Nat} {r : Row}
    (hr : rs[p]? = some r) :
    cellAt (stage3 c rs) c p =
      orElseC (getCell r c) (median? (someValues (colOf rs c))) := by
  unfold cellAt stage3
  rw [List.getElem?_map, hr]
  simp [getCell_fillCell_self]

theorem cellAt_eq_getCell {rs : List Row} {c : String} {p : Nat} {r : Row}
    (hr : rs[p]? = some r) : cellAt rs c p = getCell r c := by
  unfold cellAt
  rw [hr]

theorem stage2_keepsKnown (c : String) (rs : List Row) :
    List.Forall₂ keepsKnown (colOf rs c) (colOf (stage2 c rs) c) := by
  rw [List.forall₂_iff_get]
  refine ⟨by rw [length_colOf, length_colOf, length_stage2], ?_⟩
  intro i h1 h2 v hv
  have hp : i < rs.length := by rwa [length_colOf] at h1
  obtain ⟨r, hr⟩ : ∃ r, rs[i]? = some r := ⟨rs.get ⟨i, hp⟩, by simp [List.getElem?_eq_getElem hp]⟩
  have hv2 : cellAt rs c i = some v := by
    rw [← cellAtL_eq_get h1, ← cellAt_eq_colOf] at hv
    exact hv
  rw [← cellAtL_eq_get h2, ← cellAt_eq_colOf]
  rw [cellAt_stage2 hr]
  rw [cellAt_eq_getCell hr] at hv2
  rw [hv2]
  rfl

theorem stage3_keepsKnown (c : String) (rs : List Row) :
    List.Forall₂ keepsKnown (colOf rs c) (colOf (stage3 c rs) c) := by
  rw [List.forall₂_iff_get]
  refine ⟨by rw [length_colOf, length_colOf, length_stage3], ?_⟩
  intro i h1 h2 v hv
  have hp : i < rs.length := by rwa [length_colOf] at h1
  obtain ⟨r, hr⟩ : ∃ r, rs[i]? = some r := ⟨rs.get ⟨i, hp⟩, by simp [List.getElem?_eq_getElem hp]⟩
  have hv2 : cellAt rs c i = some v := by
    rw [← cellAtL_eq_get h1, ← cellAt_eq_colOf] at hv
    exact hv
  rw [← cellAtL_eq_get h2, ← cellAt_eq_colOf]
  rw [cellAt_stage3 hr]
  rw [cellAt_eq_getCell hr] at hv2
  rw [hv2]
  rfl

theorem monthVals_subset {rs : List Row} {c : String} {m : Nat} :
    ∀ v ∈ monthVals rs c m, v ∈ someValues (colOf rs c) := by
  intro v hv
  unfold monthVals at hv
  rw [mem_someValues] at hv ⊢
  have hsub : (colOf (rs.filter fun r => r.month == m) c).Sublist (colOf rs c) :=
    (List.filter_sublist rs).map _
  exact hsub.mem hv

theorem stage2_bounds {c : String} {rs : List Row} {lo hi : ℚ}
    (hb : ∀ w ∈ someValues (colOf rs c), lo ≤ w ∧ w ≤ hi) :
    ∀ w ∈ someValues (colOf (stage2 c rs) c), lo ≤ w ∧ w ≤ hi := by
  intro w hw
  rw [mem_someValues] at hw
  unfold stage2 colOf at hw
  rw [List.map_map] at hw
  obtain ⟨r, hr, hrw⟩ := List.mem_map.mp hw
  simp only [Function.comp] at hrw
  rw [getCell_fillCell_self] at hrw
  cases hc : getCell r c with
  | some u =>
    rw [hc, orElseC_some] at hrw
    have hu : u = w := by simpa using hrw
    subst hu
    refine hb u (mem_someValues.mpr ?_)
    rw [← hc]
    exact List.mem_map_of_mem _ hr
  | none =>
    rw [hc, orElseC_none] at hrw
    exact median?_bounds hrw fun v hv => hb v (monthVals_subset v hv)

theorem stage3_bounds {c : String} {rs : List Row} {lo hi : ℚ}
    (hb : ∀ w ∈ someValues (colOf rs c), lo ≤ w ∧ w ≤ hi) :
    ∀ w ∈ someValues (colOf (stage3 c rs) c), lo ≤ w ∧ w ≤ hi := by
  intro w hw
  rw [mem_someValues] at hw
  unfold stage3 colOf at hw
  rw [List.map_map] at hw
  obtain ⟨r, hr, hrw⟩ := List.mem_map.mp hw
  simp only [Function.comp] at hrw
  rw [getCell_fillCell_self] at hrw
  cases hc : getCell r c with
  | some u =>
    rw [hc, orElseC_some] at hrw
    have hu : u = w := by simpa using hrw
    subst hu
    refine hb u (mem_someValues.mpr ?_)
    rw [← hc]
    exact List.mem_map_of_mem _ hr
  | none =>
    rw [hc, orElseC_none] at hrw
    exact median?_bounds hrw hb

theorem stage2_all_none {c : String} {rs : List Row}
    (h : ∀ x ∈ colOf rs c, x = none) :
    ∀ x ∈ colOf (stage2 c rs) c, x = none := by
  intro x hx
  unfold stage2 colOf at hx
  rw [List.map_map] at hx
  obtain ⟨r, hr, hrx⟩ := List.mem_map.mp hx
  simp only [Function.comp] at hrx
  rw [getCell_fillCell_self] at hrx
  have hcr : getCell r c = none := h _ (List.mem_map_of_mem _ hr)
  rw [hcr, orElseC_none] at hrx
  have hmv : monthVals rs c r.month = [] := by
    rw [List.eq_nil_iff_forall_not_mem]
    intro v hv
    have hm := mem_someValues.mp (monthVals_subset v hv)
    exact absurd (h _ hm) (by simp)
  rw [hmv] at hrx
  rw [show median? [] = none from rfl] at hrx
  exact hrx.symm

theorem stage3_all_none {c : String} {rs : List Row}
    (h : ∀ x ∈ colOf rs c, x = none) :
    ∀ x ∈ colOf (stage3 c rs) c, x = none := by
  intro x hx
  unfold stage3 colOf at hx
  rw [List.map_map] at hx
  obtain ⟨r, hr, hrx⟩ := List.mem_map.mp hx
  simp only [Function.comp] at hrx
  rw [getCell_fillCell_self] at hrx
  have hcr : getCell r c = none := h _ (List.mem_map_of_mem _ hr)
  rw [hcr, orElseC_none] at hrx
  have hsv : someValues (colOf rs c) = [] := someValues_eq_nil_iff.mpr h
  rw [show someValues (List.map (fun r => getCell r c) rs) = [] from hsv] at hrx
  rw [show median? [] = none from rfl] at hrx
  exact hrx.symm

theorem cellAt_stage3_isSome {c : String} {rs : List Row} {p : Nat}
    (hp : p < rs.length) (hne : someValues (colOf rs c) ≠ []) :
    (cellAt (stage3 c rs) c p).isSome := by
  obtain ⟨r, hr⟩ : ∃ r, rs[p]? = some r := ⟨rs.get ⟨p, hp⟩, by simp [List.getElem?_eq_getElem hp]⟩
  rw [cellAt_stage3 hr]
  cases hc : getCell r c with
  | some u => simp [orElseC]
  | none =>
    obtain ⟨m, hm⟩ := median?_isSome hne
    simp [orElseC, hm]

/-! ## The imputation loop -/

theorem forall₂_keepsKnown_trans {a b c : List Cell}
    (h1 : List.Forall₂ keepsKnown a b) (h2 : List.Forall₂ keepsKnown b c) :
    List.Forall₂ keepsKnown a c := by
  rw [List.forall₂_iff_get] at h1 h2 ⊢
  obtain ⟨l1, g1⟩ := h1
  obtain ⟨l2, g2⟩ := h2
  refine ⟨l1.trans l2, fun i hi1 hi2 v hv => ?_⟩
  exact g2 i (by omega) hi2 v (g1 i hi1 (by omega) v hv)

theorem imputeCol_keepsKnown (c : String) (rs : List Row) :
    List.Forall₂ keepsKnown (colOf rs c) (colOf (imputeCol c rs) c) := by
  unfold imputeCol
  exact forall₂_keepsKnown_trans (stage1_keepsKnown c rs)
    (forall₂_keepsKnown_trans (stage2_keepsKnown c (stage1 c rs))
      (stage3_keepsKnown c (stage2 c (stage1 c rs))))

theorem length_imputeCol (c : String) (rs : List Row) :
    (imputeCol c rs).length = rs.length := by
  simp [imputeCol, length_stage3, length_stage2, length_stage1]

theorem colOf_imputeCol_other (c c' : String) (h : c' ≠ c) (rs : List Row) :
    colOf (imputeCol c rs) c' = colOf rs c' := by
  unfold imputeCol
  rw [colOf_stage3_other c c' h, colOf_stage2_other c c' h, colOf_stage1_other c c' h]

theorem imputeCol_all_none {c : String} {rs : List Row}
    (h : ∀ x ∈ colOf rs c, x = none) :
    ∀ x ∈ colOf (imputeCol c rs) c, x = none :=
  stage3_all_none (stage2_all_none (stage1_all_none h))

theorem imputeCol_bounds {c : String} {rs : List Row} {lo hi : ℚ}
    (hb : ∀ w ∈ someValues (colOf rs c), lo ≤ w ∧ w ≤ hi) :
    ∀ w ∈ someValues (colOf (imputeCol c rs) c), lo ≤ w ∧ w ≤ hi :=
  stage3_bounds (stage2_bounds (stage1_bounds hb))

theorem someValues_ne_nil_of_forall₂ {a b : List Cell}
    (h : List.Forall₂ keepsKnown a b) (hne : someValues a ≠ []) :
    someValues b ≠ [] := by
  obtain ⟨v, hv⟩ : ∃ v, v ∈ someValues a := by
    cases hsv : someValues a with
    | nil => exact absurd hsv hne
    | cons x l => exact ⟨x, by simp [hsv]⟩
  rw [mem_someValues] at hv
  obtain ⟨p, hp⟩ := List.getElem?_of_mem hv
  obtain ⟨hlen, hget⟩ := List.forall₂_iff_get.mp h
  have hpl : p < a.length := (List.getElem?_eq_some_iff.mp hp).1
  have hbp := hget p hpl (by omega) v (by
    rw [← cellAtL_eq_get hpl]
    simp [cellAtL, hp])
  intro h0
  have hmem : v ∈ someValues b := mem_someValues.mpr (by
    rw [← hbp]
    exact List.get_mem b _ _)
  rw [h0] at hmem
  exact absurd hmem (List.not_mem_nil v)

theorem imputeCol_fills {c : String} {rs : List Row}
    (hne : someValues (colOf rs c) ≠ []) {p : Nat} (hp : p < rs.length) :
    (cellAt (imputeCol c rs) c p).isSome := by
  unfold imputeCol
  have h1 := someValues_ne_nil_of_forall₂ (stage1_keepsKnown c rs) hne
  have h2 := someValues_ne_nil_of_forall₂ (stage2_keepsKnown c (stage1 c rs)) h1
  exact cellAt_stage3_isSome (by rw [length_stage2, length_stage1]; exact hp) h2

theorem imputeLoop_cons_pos (header cs : List String) (c : String) (rs : List Row)
    (hc : c ∈ header) :
    imputeLoop header (c :: cs) rs =
      ((imputeLoop header cs (imputeCol c rs)).1,
        (c, (nanCount rs c : Int) - (nanCount (imputeCol c rs) c : Int)) ::
          (imputeLoop header cs (imputeCol c rs)).2) := by
  rw [imputeLoop, if_pos hc]

theorem imputeLoop_cons_neg (header cs : List String) (c : String) (rs : List Row)
    (hc : c ∉ header) :
    imputeLoop header (c :: cs) rs = imputeLoop header cs rs := by
  rw [imputeLoop, if_neg hc]

theorem imputeLoop_colOf_not_mem (header : List String) (cs : List String)
    (rs : List Row) (c' : String) (h : c' ∉ cs) :
    colOf (imputeLoop header cs rs).1 c' = colOf rs c' := by
  induction cs generalizing rs with
  | nil => rfl
  | cons c cs ih =>
    have hcc : c' ≠ c := fun he => h (he ▸ List.mem_cons_self _ _)
    have hcs : c' ∉ cs := fun hm => h (List.mem_cons_of_mem _ hm)
    by_cases hc : c ∈ header
    · rw [imputeLoop_cons_pos _ _ _ _ hc]
      dsimp only
      rw [ih _ hcs, colOf_imputeCol_other c c' hcc]
    · rw [imputeLoop_cons_neg _ _ _ _ hc]
      exact ih _ hcs

theorem length_imputeLoop (header : List String) (cs : List String) (rs : List Row) :
    (imputeLoop header cs rs).1.length = rs.length := by
  induction cs generalizing rs with
  | nil => rfl
  | cons c cs ih =>
    by_cases hc : c ∈ header
    · rw [imputeLoop_cons_pos _ _ _ _ hc]
      dsimp only
      rw [ih _, length_imputeCol]
    · rw [imputeLoop_cons_neg _ _ _ _ hc]
      exact ih _

theorem imputeLoop_invariant (header : List String) (Inv : List Cell → Prop)
    (c : String)
    (hstep : ∀ rs, Inv (colOf rs c) → Inv (colOf (imputeCol c rs) c)) :
    ∀ (cs : List String) (rs : List Row), Inv (colOf rs c) →
      Inv (colOf (imputeLoop header cs rs).1 c) := by
  intro cs
  induction cs with
  | nil => intro rs h0; exact h0
  | cons c0 cs ih =>
    intro rs h0
    by_cases hc : c0 ∈ header
    · rw [imputeLoop_cons_pos _ _ _ _ hc]
      dsimp only
      by_cases hcc : c0 = c
      · subst hcc
        exact ih _ (hstep rs h0)
      · refine ih _ ?_
        rw [colOf_imputeCol_other c0 c fun he => hcc he.symm]
        exact h0
    · rw [imputeLoop_cons_neg _ _ _ _ hc]
      exact ih _ h0

theorem imputeLoop_establish (header : List String) (P Q : List Cell → Prop)
    (c : String)
    (hQstep : ∀ rs, Q (colOf rs c) → Q (colOf (imputeCol c rs) c))
    (hEst : ∀ rs, P (colOf rs c) → Q (colOf (imputeCol c rs) c)) :
    ∀ (cs : List String) (rs : List Row), c ∈ cs → c ∈ header → P (colOf rs c) →
      Q (colOf (imputeLoop header cs rs).1 c) := by
  intro cs
  induction cs with
  | nil => intro rs hmem; cases hmem
  | cons c0 cs ih =>
    intro rs hmem hhdr hP
    by_cases hc : c0 ∈ header
    · rw [imputeLoop_cons_pos _ _ _ _ hc]
      dsimp only
      by_cases hcc : c0 = c
      · subst hcc
        exact imputeLoop_invariant header Q c0 hQstep cs _ (hEst rs hP)
      · rcases List.mem_cons.mp hmem with he | hm
        · exact absurd he.symm hcc
        · refine ih _ hm hhdr ?_
          rw [colOf_imputeCol_other c0 c fun he => hcc he.symm]
          exact hP
    · rw [imputeLoop_cons_neg _ _ _ _ hc]
      rcases List.mem_cons.mp hmem with he | hm
      · exact absurd (he ▸ hhdr) hc
      · exact ih _ hm hhdr hP

theorem nanCount_congr {rs1 rs2 : List Row} {c : String}
    (h : colOf rs1 c = colOf rs2 c) : nanCount rs1 c = nanCount rs2 c := by
  unfold nanCount
  rw [h]

theorem imputeLoop_lookup (header : List String) (c : String) (hhdr : c ∈ header) :
    ∀ (cs₁ cs₂ : List String), c ∉ cs₁ → c ∉ cs₂ → ∀ rs : List Row,
      ∃ rsc : List Row, colOf rsc c = colOf rs c ∧
        alookup (imputeLoop header (cs₁ ++ c :: cs₂) rs).2 c =
          some ((nanCount rsc c : Int) - (nanCount (imputeCol c rsc) c : Int)) ∧
        colOf (imputeLoop header (cs₁ ++ c :: cs₂) rs).1 c =
          colOf (imputeCol c rsc) c := by
  intro cs₁
  induction cs₁ with
  | nil =>
    intro cs₂ _ hc2 rs
    simp only [List.nil_append]
    rw [imputeLoop_cons_pos _ _ _ _ hhdr]
    dsimp only
    refine ⟨rs, rfl, ?_, ?_⟩
    · simp [alookup]
    · exact imputeLoop_colOf_not_mem _ _ _ _ hc2
  | cons c0 cs₁ ih =>
    intro cs₂ hc1 hc2 rs
    have hcc : c ≠ c0 := fun he => hc1 (he ▸ List.mem_cons_self _ _)
    have hc1' : c ∉ cs₁ := fun hm => hc1 (List.mem_cons_of_mem _ hm)
    simp only [List.cons_append]
    by_cases hc : c0 ∈ header
    · rw [imputeLoop_cons_pos _ _ _ _ hc]
      dsimp only
      obtain ⟨rsc, h1, h2, h3⟩ := ih cs₂ hc1' hc2 (imputeCol c0 rs)
      refine ⟨rsc, ?_, ?_, h3⟩
      · rw [h1, colOf_imputeCol_other c0 c hcc]
      · rw [alookup, if_neg fun he => hcc he.symm]
        exact h2
    · rw [imputeLoop_cons_neg _ _ _ _ hc]
      exact ih cs₂ hc1' hc2 rs

/-! ## The masking loop -/

theorem colOf_maskCol_self (c : String) (rs : List Row) :
    colOf (maskCol c rs) c = (colOf rs c).map (maskCell c) := by
  unfold maskCol colOf
  rw [List.map_map, List.map_map]
  apply List.map_congr_left
  intro r _
  simp [Function.comp, getCell_setCell_same]

theorem colOf_maskCol_other (c c' : String) (h : c' ≠ c) (rs : List Row) :
    colOf (maskCol c rs) c' = colOf rs c' := by
  unfold maskCol colOf
  rw [List.map_map]
  apply List.map_congr_left
  intro r _
  exact getCell_setCell_other r c c' _ h

theorem length_maskCol (c : String) (rs : List Row) :
    (maskCol c rs).length = rs.length := by
  simp [maskCol]

theorem maskCell_eq_self_of_valid {c : String} {x : Cell}
    (h : isInvalid c x = false) : maskCell c x = x := by
  simp [maskCell, h]

theorem maskCol_valid (c : String) (rs : List Row) :
    ∀ x ∈ colOf (maskCol c rs) c, isInvalid c x = false := by
  intro x hx
  rw [colOf_maskCol_self] at hx
  obtain ⟨y, hy, rfl⟩ := List.mem_map.mp hx
  by_cases h : isInvalid c y
  · rw [show maskCell c y = none by simp [maskCell, h]]
    rfl
  · simp only [Bool.not_eq_true] at h
    rw [maskCell_eq_self_of_valid h]
    exact h

theorem maskLoop_cons_pos (header cs : List String) (c : String) (rs : List Row)
    (hc : c ∈ header) :
    maskLoop header (c :: cs) rs =
      ((maskLoop header cs (maskCol c rs)).1,
        (c, maskCount c rs) :: (maskLoop header cs (maskCol c rs)).2) := by
  rw [maskLoop, if_pos hc]

theorem maskLoop_cons_neg (header cs : List String) (c : String) (rs : List Row)
    (hc : c ∉ header) :
    maskLoop header (c :: cs) rs = maskLoop header cs rs := by
  rw [maskLoop, if_neg hc]

theorem maskLoop_colOf_not_mem (header : List String) (cs : List String)
    (rs : List Row) (c' : String) (h : c' ∉ cs) :
    colOf (maskLoop header cs rs).1 c' = colOf rs c' := by
  induction cs generalizing rs with
  | nil => rfl
  | cons c cs ih =>
    have hcc : c' ≠ c := fun he => h (he ▸ List.mem_cons_self _ _)
    have hcs : c' ∉ cs := fun hm => h (List.mem_cons_of_mem _ hm)
    by_cases hc : c ∈ header
    · rw [maskLoop_cons_pos _ _ _ _ hc]
      dsimp only
      rw [ih _ hcs, colOf_maskCol_other c c' hcc]
    · rw [maskLoop_cons_neg _ _ _ _ hc]
      exact ih _ hcs

theorem length_maskLoop (header : List String) (cs : List String) (rs : List Row) :
    (maskLoop header cs rs).1.length = rs.length := by
  induction cs generalizing rs with
  | nil => rfl
  | cons c cs ih =>
    by_cases hc : c ∈ header
    · rw [maskLoop_cons_pos _ _ _ _ hc]
      dsimp only
      rw [ih _, length_maskCol]
    · rw [maskLoop_cons_neg _ _ _ _ hc]
      exact ih _

theorem maskLoop_valid_preserved (header : List String) (cs : List String) (c : String) :
    ∀ rs : List Row, (∀ x ∈ colOf rs c, isInvalid c x = false) →
      ∀ x ∈ colOf (maskLoop header cs rs).1 c, isInvalid c x = false := by
  induction cs with
  | nil => intro rs h; exact h
  | cons c0 cs ih =>
    intro rs h
    by_cases hc : c0 ∈ header
    · rw [maskLoop_cons_pos _ _ _ _ hc]
      dsimp only
      by_cases hcc : c0 = c
      · subst hcc
        exact ih _ (maskCol_valid c0 rs)
      · refine ih _ ?_
        rw [colOf_maskCol_other c0 c fun he => hcc he.symm]
        exact h
    · rw [maskLoop_cons_neg _ _ _ _ hc]
      exact ih _ h

theorem maskLoop_valid (header : List String) (cs : List String) (c : String) :
    ∀ rs : List Row, c ∈ cs → c ∈ header →
      ∀ x ∈ colOf (maskLoop header cs rs).1 c, isInvalid c x = false := by
  induction cs with
  | nil => intro rs hmem; cases hmem
  | cons c0 cs ih =>
    intro rs hmem hhdr
    by_cases hc : c0 ∈ header
    · rw [maskLoop_cons_pos _ _ _ _ hc]
      dsimp only
      by_cases hcc : c0 = c
      · subst hcc
        exact maskLoop_valid_preserved header cs c0 _ (maskCol_valid c0 rs)
      · rcases List.mem_cons.mp hmem with he | hm
        · exact absurd he.symm hcc
        · exact ih _ hm hhdr
    · rw [maskLoop_cons_neg _ _ _ _ hc]
      rcases List.mem_cons.mp hmem with he | hm
      · exact absurd (he ▸ hhdr) hc
      · exact ih _ hm hhdr

theorem maskLoop_noop (header : List String) (cs : List String) :
    ∀ rs : List Row, (∀ c ∈ cs, ∀ x ∈ colOf rs c, isInvalid c x = false) →
      (∀ s, colOf (maskLoop header cs rs).1 s = colOf rs s) ∧
        ∀ e ∈ (maskLoop header cs rs).2, e.2 = 0 := by
  induction cs with
  | nil =>
    intro rs _
    exact ⟨fun s => rfl, by simp [maskLoop]⟩
  | cons c0 cs ih =>
    intro rs h
    have h0 := h c0 (List.mem_cons_self _ _)
    have hcs : ∀ c ∈ cs, ∀ x ∈ colOf rs c, isInvalid c x = false :=
      fun c hc => h c (List.mem_cons_of_mem _ hc)
    by_cases hc : c0 ∈ header
    · rw [maskLoop_cons_pos _ _ _ _ hc]
      dsimp only
      have hmc : ∀ s, colOf (maskCol c0 rs) s = colOf rs s := by
        intro s
        by_cases hs : s = c0
        · subst hs
          rw [colOf_maskCol_self]
          rw [List.map_congr_left fun x hx => maskCell_eq_self_of_valid (h0 x hx)]
          exact List.map_id _
        · exact colOf_maskCol_other c0 s hs rs
      have hcs' : ∀ c ∈ cs, ∀ x ∈ colOf (maskCol c0 rs) c, isInvalid c x = false := by
        intro c hcm x hx
        rw [hmc c] at hx
        exact hcs c hcm x hx
      obtain ⟨ih1, ih2⟩ := ih (maskCol c0 rs) hcs'
      refine ⟨fun s => (ih1 s).trans (hmc s), ?_⟩
      intro e he
      rcases List.mem_cons.mp he with he0 | hem
      · rw [he0]
        exact List.countP_eq_zero.mpr fun x hx => by simp [h0 x hx]
      · exact ih2 e hem
    · rw [maskLoop_cons_neg _ _ _ _ hc]
      exact ih rs hcs

/-! ## Key fields pass through every operation unchanged -/


theorem keyOf_setCell (r : Row) (c : String) (v : Cell) :
    keyOf (setCell r c v) = keyOf r := rfl

theorem keys_zipWith_setCell (c : String) :
    ∀ (g : List Row) (ys : List Cell), ys.length = g.length →
      (List.zipWith (fun r v => setCell r c v) g ys).map keyOf = g.map keyOf := by
  intro g
  induction g with
  | nil => intro ys _; simp
  | cons r g ih =>
    intro ys hl
    cases ys with
    | nil => simp at hl
    | cons y ys =>
      simp only [List.zipWith_cons_cons, List.map_cons, keyOf_setCell]
      rw [ih ys (by simpa using hl)]

theorem keys_fillGroup (c : String) (g : List Row) :
    (fillGroup c g).map keyOf = g.map keyOf :=
  keys_zipWith_setCell c g _ (by rw [length_interpolateBoth, length_colOf])

theorem keys_stage1 (c : String) (rs : List Row) :
    (stage1 c rs).map keyOf = rs.map keyOf := by
  unfold stage1
  rw [List.map_flatMap]
  simp only [keys_fillGroup]
  conv_rhs => rw [← groupRuns_flatten rs]
  rw [List.map_flatten, ← List.flatMap_def]

theorem keys_stage2 (c : String) (rs : List Row) :
    (stage2 c rs).map keyOf = rs.map keyOf := by
  unfold stage2 fillCell
  rw [List.map_map]
  apply List.map_congr_left
  intro r _
  exact keyOf_setCell r c _

theorem keys_stage3 (c : String) (rs : List Row) :
    (stage3 c rs).map keyOf = rs.map keyOf := by
  unfold stage3 fillCell
  rw [List.map_map]
  apply List.map_congr_left
  intro r _
  exact keyOf_setCell r c _

theorem keys_imputeCol (c : String) (rs : List Row) :
    (imputeCol c rs).map keyOf = rs.map keyOf := by
  unfold imputeCol
  rw [keys_stage3, keys_stage2, keys_stage1]

theorem keys_imputeLoop (header : List String) (cs : List String) (rs : List Row) :
    (imputeLoop header cs rs).1.map keyOf = rs.map keyOf := by
  induction cs generalizing rs with
  | nil => rfl
  | cons c cs ih =>
    by_cases hc : c ∈ header
    · rw [imputeLoop_cons_pos _ _ _ _ hc]
      dsimp only
      rw [ih _, keys_imputeCol]
    · rw [imputeLoop_cons_neg _ _ _ _ hc]
      exact ih _

theorem keys_maskCol (c : String) (rs : List Row) :
    (maskCol c rs).map keyOf = rs.map keyOf := by
  unfold maskCol
  rw [List.map_map]
  apply List.map_congr_left
  intro r _
  exact keyOf_setCell r c _

theorem keys_maskLoop (header : List String) (cs : List String) (rs : List Row) :
    (maskLoop header cs rs).1.map keyOf = rs.map keyOf := by
  induction cs generalizing rs with
  | nil => rfl
  | cons c cs ih =>
    by_cases hc : c ∈ header
    · rw [maskLoop_cons_pos _ _ _ _ hc]
      dsimp only
      rw [ih _, keys_maskCol]
    · rw [maskLoop_cons_neg _ _ _ _ hc]
      exact ih _

/-! ## Miscellaneous helpers -/

theorem colOf_sortRows_perm (rs : List Row) (c : String) :
    (colOf (sortRows rs) c).Perm (colOf rs c) :=
  (sortRows_perm rs).map _

theorem nanCount_sortRows (rs : List Row) (c : String) :
    nanCount (sortRows rs) c = nanCount rs c :=
  (colOf_sortRows_perm rs c).countP_eq _

theorem someValues_perm {xs ys : List Cell} (h : xs.Perm ys) :
    (someValues xs).Perm (someValues ys) := h.filterMap _

theorem alookup_map_self {l : List String} {c : String} (h : c ∈ l)
    {β : Type} (f : String → β) :
    alookup (l.map fun k => (k, f k)) c = some (f c) := by
  induction l with
  | nil => cases h
  | cons k l ih =>
    rcases List.mem_cons.mp h with he | hm
    · subst he
      simp [alookup]
    · by_cases hk : k = c
      · subst hk
        simp [alookup]
      · rw [List.map_cons, alookup, if_neg hk]
        exact ih hm

theorem mem_split_of_nodup {l : List String} {c : String} (h : c ∈ l)
    (hnd : l.Nodup) :
    ∃ s t, l = s ++ c :: t ∧ c ∉ s ∧ c ∉ t := by
  obtain ⟨s, t, rfl⟩ := List.append_of_mem h
  obtain ⟨nds, ndct, disj⟩ := List.nodup_append.mp hnd
  obtain ⟨hct, ndt⟩ := List.nodup_cons.mp ndct
  refine ⟨s, t, rfl, ?_, hct⟩
  intro hcs
  exact List.disjoint_left.mp disj hcs (List.mem_cons_self _ _)


set_option maxRecDepth 4000 in
example : preprocess_file tblW = some reportW := by
  with_unfolding_all decide

/-! ## Claim theorems -/

/-- C2: for every covariate and every cell still missing after Stage 1,
Stage 2 fills it with the skip-missing midpoint median of that covariate's
values sharing the row's calendar month across the entire dataset, taken
from the state after Stage 1; a cell still missing after Stage 2 is filled
by Stage 3 with the global median of the state after Stage 2; and the
per-column imputation body is exactly this composition of the three
stages. -/
theorem C2_stage_medians (c : String) (rs : List Row) :
    (imputeCol c rs = stage3 c (stage2 c (stage1 c rs))) ∧
    (∀ (p : Nat) (r : Row), (stage1 c rs)[p]? = some r → getCell r c = none →
      cellAt (stage2 c (stage1 c rs)) c p =
        median? (monthVals (stage1 c rs) c r.month)) ∧
    (∀ (p : Nat) (r : Row), (stage2 c (stage1 c rs))[p]? = some r →
      getCell r c = none →
      cellAt (stage3 c (stage2 c (stage1 c rs))) c p =
        median? (someValues (colOf (stage2 c (stage1 c rs)) c))) := by
  refine ⟨rfl, ?_, ?_⟩
  · intro p r hr hmiss
    rw [cellAt_stage2 hr, hmiss, orElseC_none]
  · intro p r hr hmiss
    rw [cellAt_stage3 hr, hmiss, orElseC_none]


theorem C2_witness :
    (cellAt (stage2 "lst_celsius" (stage1 "lst_celsius" [rowC2a, rowC2b])) "lst_celsius" 1 =
      median? (monthVals (stage1 "lst_celsius" [rowC2a, rowC2b]) "lst_celsius" 1)) ∧
    (cellAt (stage3 "lst_celsius" (stage2 "lst_celsius" (stage1 "lst_celsius" [rowC2c, rowC2d])))
        "lst_celsius" 0 =
      median? (someValues (colOf
        (stage2 "lst_celsius" (stage1 "lst_celsius" [rowC2c, rowC2d])) "lst_celsius"))) := by
  constructor
  · exact (C2_stage_medians "lst_celsius" [rowC2a, rowC2b]).2.1 1 rowC2b
      (by with_unfolding_all decide) (by with_unfolding_all decide)
  · exact (C2_stage_medians "lst_celsius" [rowC2c, rowC2d]).2.2 0 rowC2c
      (by with_unfolding_all decide) (by with_unfolding_all decide)

/-- C8: masking a table that contains no sentinel values and no
out-of-range temperature values reports a masked count of zero for every
covariate and leaves every cell (and every key field, and the header)
unchanged. -/
theorem C8_mask_idempotent (t : Table)
    (h : ∀ c ∈ IMPUTE_COLUMNS, ∀ x ∈ colOf t.rows c, isInvalid c x = false) :
    (∀ e ∈ (clean_and_mask t).2, e.2 = 0) ∧
    (∀ s, colOf (clean_and_mask t).1.rows s = colOf t.rows s) ∧
    (clean_and_mask t).1.header = t.header ∧
    (clean_and_mask t).1.rows.map keyOf = t.rows.map keyOf := by
  obtain ⟨h1, h2⟩ := maskLoop_noop t.header IMPUTE_COLUMNS t.rows h
  exact ⟨h2, h1, rfl, keys_maskLoop t.header IMPUTE_COLUMNS t.rows⟩


theorem C8_witness :
    (∀ e ∈ (clean_and_mask tblW8).2, e.2 = 0) ∧
    (∀ s, colOf (clean_and_mask tblW8).1.rows s = colOf tblW8.rows s) ∧
    (clean_and_mask tblW8).1.header = tblW8.header ∧
    (clean_and_mask tblW8).1.rows.map keyOf = tblW8.rows.map keyOf :=
  C8_mask_idempotent tblW8 (by with_unfolding_all decide)

/-- C9: a column other than the five covariates (such as slope or
elevation) passes through the Masker with its column of values unchanged,
and through the Imputer with its column equal to that of the
(grid, date)-sorted input, which is a permutation of the input rows; the
key fields are likewise unchanged. -/
theorem C9_passthrough (t : Table) (s : String) (hs : s ∉ IMPUTE_COLUMNS) :
    colOf (clean_and_mask t).1.rows s = colOf t.rows s ∧
    (clean_and_mask t).1.rows.map keyOf = t.rows.map keyOf ∧
    colOf (impute_data t).1.rows s = colOf (sortRows t.rows) s ∧
    (impute_data t).1.rows.map keyOf = (sortRows t.rows).map keyOf ∧
    (sortRows t.rows).Perm t.rows := by
  refine ⟨maskLoop_colOf_not_mem _ _ _ _ hs, keys_maskLoop _ _ _,
    imputeLoop_colOf_not_mem _ _ _ _ hs, keys_imputeLoop _ _ _, sortRows_perm _⟩

theorem C9_witness :
    colOf (clean_and_mask tblW).1.rows "slope" = colOf tblW.rows "slope" ∧
    (clean_and_mask tblW).1.rows.map keyOf = tblW.rows.map keyOf ∧
    colOf (impute_data tblW).1.rows "slope" = colOf (sortRows tblW.rows) "slope" ∧
    (impute_data tblW).1.rows.map keyOf = (sortRows tblW.rows).map keyOf ∧
    (sortRows tblW.rows).Perm tblW.rows :=
  C9_passthrough tblW "slope" (by with_unfolding_all decide)

/-- C5: for a covariate present in the report, the number of missing
values entering imputation equals the imputed count reported plus the
still-missing count reported. -/
theorem C5_count_conservation (t : Table) (c : String) (hc : c ∈ IMPUTE_COLUMNS)
    (r : Report) (hr : preprocess_file t = some r) :
    ∃ (i : Int) (f : Nat), alookup r.values_imputed c = some i ∧
      alookup r.final_null_count c = some f ∧
      (nanCount (clean_and_mask t).1.rows c : Int) = i + (f : Int) := by
  simp only [preprocess_file] at hr
  by_cases hcond : ∀ c' ∈ IMPUTE_COLUMNS, c' ∈ (impute_data (clean_and_mask t).1).1.header
  · rw [if_pos hcond] at hr
    injection hr with hr
    subst hr
    have hhdr : c ∈ (clean_and_mask t).1.header := hcond c hc
    obtain ⟨cs₁, cs₂, heq, hs1, hs2⟩ :=
      mem_split_of_nodup hc (by decide : IMPUTE_COLUMNS.Nodup)
    have hlook := imputeLoop_lookup (clean_and_mask t).1.header c hhdr cs₁ cs₂ hs1 hs2
      (sortRows (clean_and_mask t).1.rows)
    obtain ⟨rsc, h1, h2, h3⟩ := hlook
    refine ⟨(nanCount rsc c : Int) - (nanCount (imputeCol c rsc) c : Int),
      nanCount (impute_data (clean_and_mask t).1).1.rows c, ?_, ?_, ?_⟩
    · show alookup (impute_data (clean_and_mask t).1).2 c = _
      unfold impute_data
      dsimp only
      rw [show IMPUTE_COLUMNS = cs₁ ++ c :: cs₂ from heq]
      exact h2
    · exact alookup_map_self hc _
    · have e1 : nanCount (impute_data (clean_and_mask t).1).1.rows c =
          nanCount (imputeCol c rsc) c := by
        apply nanCount_congr
        show colOf (impute_data (clean_and_mask t).1).1.rows c = _
        unfold impute_data
        dsimp only
        rw [show IMPUTE_COLUMNS = cs₁ ++ c :: cs₂ from heq]
        exact h3
      have e2 : nanCount rsc c = nanCount (clean_and_mask t).1.rows c := by
        rw [nanCount_congr h1, nanCount_sortRows]
      rw [e1, ← e2]
      omega
  · rw [if_neg hcond] at hr
    exact absurd hr (by simp)

set_option maxRecDepth 8000 in
theorem C5_witness :
    ∃ (i : Int) (f : Nat), alookup reportW.values_imputed "ndvi" = some i ∧
      alookup reportW.final_null_count "ndvi" = some f ∧
      (nanCount (clean_and_mask tblW).1.rows "ndvi" : Int) = i + (f : Int) :=
  C5_count_conservation tblW "ndvi" (by decide) reportW
    (by with_unfolding_all decide)


set_option maxRecDepth 8000 in
/-- C6 (evaluation at the failing input): on a table whose header lacks
`rainfall_mm`, the Masker and the Imputer skip the absent covariate and
record no entry for it, but `preprocess_file` fails — pandas raises
`KeyError` in `df[IMPUTE_COLUMNS].isna()` — instead of completing with a
report that merely omits the covariate. -/
theorem C6_absent_column_keyerror :
    alookup (clean_and_mask tblC6).2 "rainfall_mm" = none ∧
    alookup (impute_data (clean_and_mask tblC6).1).2 "rainfall_mm" = none ∧
    preprocess_file tblC6 = none := by
  with_unfolding_all decide

/-- C7: a covariate column that is entirely missing after masking does not
make the pipeline fail: the report is produced, its still-missing count
for that covariate equals the table's row count, and every value of the
covariate is still missing after Stage 3. -/
theorem C7_entirely_missing (t : Table) (c : String) (hc : c ∈ IMPUTE_COLUMNS)
    (hdr : ∀ c' ∈ IMPUTE_COLUMNS, c' ∈ t.header)
    (hall : ∀ x ∈ colOf (clean_and_mask t).1.rows c, x = none) :
    ∃ r : Report, preprocess_file t = some r ∧
      alookup r.final_null_count c = some t.rows.length ∧
      ∀ x ∈ colOf (impute_data (clean_and_mask t).1).1.rows c, x = none := by
  have hall2 : ∀ x ∈ colOf (sortRows (clean_and_mask t).1.rows) c, x = none := by
    intro x hx
    exact hall x ((colOf_sortRows_perm _ c).mem_iff.mp hx)
  have hfinal : ∀ x ∈ colOf (impute_data (clean_and_mask t).1).1.rows c, x = none := by
    show ∀ x ∈ colOf (imputeLoop (clean_and_mask t).1.header IMPUTE_COLUMNS
      (sortRows (clean_and_mask t).1.rows)).1 c, x = none
    exact imputeLoop_invariant (clean_and_mask t).1.header
      (fun col => ∀ x ∈ col, x = none) c (fun rs h => imputeCol_all_none h)
      IMPUTE_COLUMNS _ hall2
  have hlen : (impute_data (clean_and_mask t).1).1.rows.length = t.rows.length := by
    show (imputeLoop _ IMPUTE_COLUMNS (sortRows (clean_and_mask t).1.rows)).1.length = _
    rw [length_imputeLoop, length_sortRows]
    show (maskLoop t.header IMPUTE_COLUMNS t.rows).1.length = _
    exact length_maskLoop _ _ _
  refine ⟨{ total_rows := (impute_data (clean_and_mask t).1).1.rows.length
          , outliers_masked := (clean_and_mask t).2
          , values_imputed := (impute_data (clean_and_mask t).1).2
          , final_null_count := IMPUTE_COLUMNS.map
              (fun c' => (c', nanCount (impute_data (clean_and_mask t).1).1.rows c')) },
    ?_, ?_, hfinal⟩
  · simp only [preprocess_file]
    have hdr2 : ∀ c' ∈ IMPUTE_COLUMNS, c' ∈ (impute_data (clean_and_mask t).1).1.header := hdr
    rw [if_pos hdr2]
  · rw [alookup_map_self hc]
    congr 1
    rw [← hlen]
    unfold nanCount
    rw [List.countP_eq_length.mpr, length_colOf]
    intro a ha
    rw [hfinal a ha]
    rfl

set_option maxRecDepth 8000 in
theorem C7_witness :
    ∃ r : Report, preprocess_file tblW = some r ∧
      alookup r.final_null_count "ndwi" = some tblW.rows.length ∧
      ∀ x ∈ colOf (impute_data (clean_and_mask tblW).1).1.rows "ndwi", x = none :=
  C7_entirely_missing tblW "ndwi" (by decide) (by decide)
    (by with_unfolding_all decide)

theorem cellAt_mem_colOf {rs : List Row} {c : String} {p : Nat} (hp : p < rs.length) :
    cellAt rs c p ∈ colOf rs c := by
  obtain ⟨r, hr⟩ : ∃ r, rs[p]? = some r :=
    ⟨rs.get ⟨p, hp⟩, by simp [List.getElem?_eq_getElem hp]⟩
  rw [cellAt_eq_getCell hr]
  exact List.mem_map_of_mem _ (List.getElem?_mem hr)

theorem forall₂_keepsKnown_all_isSome {a b : List Cell}
    (h : List.Forall₂ keepsKnown a b) (ha : ∀ x ∈ a, x.isSome) :
    ∀ x ∈ b, x.isSome := by
  obtain ⟨hlen, hget⟩ := List.forall₂_iff_get.mp h
  intro x hx
  obtain ⟨q, hq⟩ := List.getElem?_of_mem hx
  have hql : q < b.length := (List.getElem?_eq_some_iff.mp hq).1
  have hqa : q < a.length := by omega
  obtain ⟨v, hv⟩ := Option.isSome_iff_exists.mp (ha (a.get ⟨q, hqa⟩) (List.get_mem a _ _))
  have hbv := hget q hqa hql v hv
  have hxv : x = some v := by
    have hbq : b[q]? = some (b.get ⟨q, hql⟩) := by
      simp [List.getElem?_eq_getElem hql, List.get_eq_getElem]
    rw [hq] at hbq
    injection hbq with hbq
    rw [hbq, hbv]
  rw [hxv]
  rfl

theorem imputeCol_keeps_isSome {c : String} {rs : List Row}
    (h : ∀ x ∈ colOf rs c, x.isSome) :
    ∀ x ∈ colOf (imputeCol c rs) c, x.isSome :=
  forall₂_keepsKnown_all_isSome (imputeCol_keepsKnown c rs) h

theorem imputeCol_all_isSome {c : String} {rs : List Row}
    (hne : someValues (colOf rs c) ≠ []) :
    ∀ x ∈ colOf (imputeCol c rs) c, x.isSome := by
  intro x hx
  obtain ⟨q, hq⟩ := List.getElem?_of_mem hx
  have hql : q < rs.length := by
    have := (List.getElem?_eq_some_iff.mp hq).1
    rwa [length_colOf, length_imputeCol] at this
  have hfill := imputeCol_fills hne hql
  rw [cellAt_eq_colOf] at hfill
  unfold cellAtL at hfill
  rw [hq] at hfill
  exact hfill

/-- C4: after all three imputation stages, a cell of a present covariate
column remains missing exactly when the covariate has zero non-missing
values (after masking) across the entire table. -/
theorem C4_missing_iff_all_missing (t : Table) (c : String)
    (hc : c ∈ IMPUTE_COLUMNS) (hdr : c ∈ t.header) (p : Nat)
    (hp : p < (impute_data (clean_and_mask t).1).1.rows.length) :
    cellAt (impute_data (clean_and_mask t).1).1.rows c p = none ↔
      ∀ x ∈ colOf (clean_and_mask t).1.rows c, x = none := by
  constructor
  · intro hmiss
    by_contra hnot
    push_neg at hnot
    obtain ⟨x, hx, hxne⟩ := hnot
    obtain ⟨v, rfl⟩ : ∃ v, x = some v := by
      cases x with
      | none => exact absurd rfl hxne
      | some v => exact ⟨v, rfl⟩
    have hne : someValues (colOf (sortRows (clean_and_mask t).1.rows) c) ≠ [] := by
      intro h0
      have hall := someValues_eq_nil_iff.mp h0
      have hxs : some v ∈ colOf (sortRows (clean_and_mask t).1.rows) c :=
        (colOf_sortRows_perm _ c).mem_iff.mpr hx
      exact absurd (hall _ hxs) (by simp)
    have hQ : ∀ x ∈ colOf (impute_data (clean_and_mask t).1).1.rows c, x.isSome := by
      show ∀ x ∈ colOf (imputeLoop (clean_and_mask t).1.header IMPUTE_COLUMNS
        (sortRows (clean_and_mask t).1.rows)).1 c, x.isSome
      exact imputeLoop_establish (clean_and_mask t).1.header
        (fun col => someValues col ≠ []) (fun col => ∀ x ∈ col, x.isSome) c
        (fun rs h => imputeCol_keeps_isSome h)
        (fun rs h => imputeCol_all_isSome h)
        IMPUTE_COLUMNS _ hc hdr hne
    have hmem := @cellAt_mem_colOf (impute_data (clean_and_mask t).1).1.rows c p hp
    have := hQ _ hmem
    rw [hmiss] at this
    exact absurd this (by simp)
  · intro hall
    have hall2 : ∀ x ∈ colOf (sortRows (clean_and_mask t).1.rows) c, x = none := by
      intro x hx
      exact hall x ((colOf_sortRows_perm _ c).mem_iff.mp hx)
    have hfinal : ∀ x ∈ colOf (impute_data (clean_and_mask t).1).1.rows c, x = none := by
      show ∀ x ∈ colOf (imputeLoop (clean_and_mask t).1.header IMPUTE_COLUMNS
        (sortRows (clean_and_mask t).1.rows)).1 c, x = none
      exact imputeLoop_invariant (clean_and_mask t).1.header
        (fun col => ∀ x ∈ col, x = none) c (fun rs h => imputeCol_all_none h)
        IMPUTE_COLUMNS _ hall2
    exact hfinal _ (cellAt_mem_colOf hp)

set_option maxRecDepth 8000 in
theorem C4_witness :
    cellAt (impute_data (clean_and_mask tblW).1).1.rows "ndwi" 0 = none ↔
      ∀ x ∈ colOf (clean_and_mask tblW).1.rows "ndwi", x = none :=
  C4_missing_iff_all_missing tblW "ndwi" (by decide) (by decide) 0
    (by with_unfolding_all decide)

theorem lst_bounds_of_valid {x : Cell}
    (h : isInvalid "lst_celsius" x = false) :
    ∀ v : ℚ, x = some v →
      MIN_VALID_LST ≤ v ∧ v ≤ MAX_VALID_LST ∧ v ≠ GEE_UNMASK_VALUE := by
  intro v hv
  subst hv
  have h2 : (decide (v = GEE_UNMASK_VALUE) || decide (v < MIN_VALID_LST)
      || decide (v > MAX_VALID_LST)) = false := by
    rw [show (decide (v = GEE_UNMASK_VALUE) || decide (v < MIN_VALID_LST)
        || decide (v > MAX_VALID_LST)) = isInvalid "lst_celsius" (some v) from by
      simp [isInvalid]]
    exact h
  rw [Bool.or_eq_false_iff, Bool.or_eq_false_iff] at h2
  obtain ⟨⟨g1, g2⟩, g3⟩ := h2
  rw [decide_eq_false_iff_not] at g1 g2 g3
  exact ⟨not_lt.mp g2, not_lt.mp g3, g1⟩

/-- C3: every temperature value is missing or lies in [10, 60] and differs
from the sentinel -999, in the masked table, after each of the three
imputation stages, and in the final imputed table. -/
theorem C3_lst_range (t : Table) (hdr : "lst_celsius" ∈ t.header) :
    (∀ v ∈ someValues (colOf (clean_and_mask t).1.rows "lst_celsius"),
      MIN_VALID_LST ≤ v ∧ v ≤ MAX_VALID_LST ∧ v ≠ GEE_UNMASK_VALUE) ∧
    (∀ v ∈ someValues (colOf
        (stage1 "lst_celsius" (sortRows (clean_and_mask t).1.rows)) "lst_celsius"),
      MIN_VALID_LST ≤ v ∧ v ≤ MAX_VALID_LST ∧ v ≠ GEE_UNMASK_VALUE) ∧
    (∀ v ∈ someValues (colOf
        (stage2 "lst_celsius" (stage1 "lst_celsius"
          (sortRows (clean_and_mask t).1.rows))) "lst_celsius"),
      MIN_VALID_LST ≤ v ∧ v ≤ MAX_VALID_LST ∧ v ≠ GEE_UNMASK_VALUE) ∧
    (∀ v ∈ someValues (colOf
        (stage3 "lst_celsius" (stage2 "lst_celsius" (stage1 "lst_celsius"
          (sortRows (clean_and_mask t).1.rows)))) "lst_celsius"),
      MIN_VALID_LST ≤ v ∧ v ≤ MAX_VALID_LST ∧ v ≠ GEE_UNMASK_VALUE) ∧
    (∀ v ∈ someValues (colOf (impute_data (clean_and_mask t).1).1.rows "lst_celsius"),
      MIN_VALID_LST ≤ v ∧ v ≤ MAX_VALID_LST ∧ v ≠ GEE_UNMASK_VALUE) := by
  have hvalid : ∀ x ∈ colOf (clean_and_mask t).1.rows "lst_celsius",
      isInvalid "lst_celsius" x = false :=
    maskLoop_valid t.header IMPUTE_COLUMNS "lst_celsius" t.rows (by decide) hdr
  have hmask : ∀ v ∈ someValues (colOf (clean_and_mask t).1.rows "lst_celsius"),
      MIN_VALID_LST ≤ v ∧ v ≤ MAX_VALID_LST ∧ v ≠ GEE_UNMASK_VALUE := by
    intro v hv
    exact lst_bounds_of_valid (hvalid _ (mem_someValues.mp hv)) v rfl
  have hB : ∀ v ∈ someValues (colOf (clean_and_mask t).1.rows "lst_celsius"),
      MIN_VALID_LST ≤ v ∧ v ≤ MAX_VALID_LST := fun v hv => ⟨(hmask v hv).1, (hmask v hv).2.1⟩
  have hne : ∀ v : ℚ, MIN_VALID_LST ≤ v ∧ v ≤ MAX_VALID_LST →
      MIN_VALID_LST ≤ v ∧ v ≤ MAX_VALID_LST ∧ v ≠ GEE_UNMASK_VALUE := by
    intro v hv
    refine ⟨hv.1, hv.2, ?_⟩
    intro h0
    rw [h0] at hv
    unfold MIN_VALID_LST GEE_UNMASK_VALUE at hv
    have := hv.1
    norm_num at this
  have hs0 : ∀ v ∈ someValues (colOf (sortRows (clean_and_mask t).1.rows) "lst_celsius"),
      MIN_VALID_LST ≤ v ∧ v ≤ MAX_VALID_LST := by
    intro v hv
    refine hB v ?_
    exact (someValues_perm (colOf_sortRows_perm _ _)).mem_iff.mp hv
  have hs1 := stage1_bounds hs0
  have hs2 := stage2_bounds hs1
  have hs3 := stage3_bounds hs2
  have hfin : ∀ v ∈ someValues (colOf (impute_data (clean_and_mask t).1).1.rows
      "lst_celsius"), MIN_VALID_LST ≤ v ∧ v ≤ MAX_VALID_LST := by
    show ∀ v ∈ someValues (colOf (imputeLoop (clean_and_mask t).1.header IMPUTE_COLUMNS
      (sortRows (clean_and_mask t).1.rows)).1 "lst_celsius"), _
    exact imputeLoop_invariant (clean_and_mask t).1.header
      (fun col => ∀ v ∈ someValues col, MIN_VALID_LST ≤ v ∧ v ≤ MAX_VALID_LST)
      "lst_celsius" (fun rs h => imputeCol_bounds h) IMPUTE_COLUMNS _ hs0
  exact ⟨hmask, fun v hv => hne v (hs1 v hv), fun v hv => hne v (hs2 v hv),
    fun v hv => hne v (hs3 v hv), fun v hv => hne v (hfin v hv)⟩

set_option maxRecDepth 8000 in
theorem C3_witness :
    MIN_VALID_LST ≤ (20 : ℚ) ∧ (20 : ℚ) ≤ MAX_VALID_LST ∧ (20 : ℚ) ≠ GEE_UNMASK_VALUE :=
  (C3_lst_range tblW (by decide)).2.2.2.2 20 (by with_unfolding_all decide)


/-- C10: with `lo`/`hi` the minimum and maximum of a covariate's
non-missing post-masking values, every value present after each imputation
stage (and in the final imputed table) lies in `[lo, hi]`, and no
imputation stage changes a cell that is already non-missing. -/
theorem C10_imputed_within_bounds (t : Table) (c : String) (lo hi : ℚ)
    (hmin : (someValues (colOf (clean_and_mask t).1.rows c)).min? = some lo)
    (hmax : (someValues (colOf (clean_and_mask t).1.rows c)).max? = some hi) :
    (∀ v ∈ someValues (colOf
        (stage1 c (sortRows (clean_and_mask t).1.rows)) c), lo ≤ v ∧ v ≤ hi) ∧
    (∀ v ∈ someValues (colOf
        (stage2 c (stage1 c (sortRows (clean_and_mask t).1.rows))) c), lo ≤ v ∧ v ≤ hi) ∧
    (∀ v ∈ someValues (colOf
        (stage3 c (stage2 c (stage1 c (sortRows (clean_and_mask t).1.rows)))) c),
      lo ≤ v ∧ v ≤ hi) ∧
    (∀ v ∈ someValues (colOf (impute_data (clean_and_mask t).1).1.rows c),
      lo ≤ v ∧ v ≤ hi) ∧
    (∀ (p : Nat) (v : ℚ), cellAt (sortRows (clean_and_mask t).1.rows) c p = some v →
      cellAt (stage1 c (sortRows (clean_and_mask t).1.rows)) c p = some v) ∧
    (∀ (p : Nat) (v : ℚ),
      cellAt (stage1 c (sortRows (clean_and_mask t).1.rows)) c p = some v →
      cellAt (stage2 c (stage1 c (sortRows (clean_and_mask t).1.rows))) c p = some v) ∧
    (∀ (p : Nat) (v : ℚ),
      cellAt (stage2 c (stage1 c (sortRows (clean_and_mask t).1.rows))) c p = some v →
      cellAt (stage3 c (stage2 c (stage1 c (sortRows (clean_and_mask t).1.rows)))) c p
        = some v) := by
  have hminc := (List.min?_eq_some_iff (fun x => le_refl x) (fun x y => min_choice x y)
    (fun x y z => le_min_iff)).mp hmin
  have hmaxc := (List.max?_eq_some_iff (fun x => le_refl x) (fun x y => max_choice x y)
    (fun x y z => max_le_iff)).mp hmax
  have hb : ∀ v ∈ someValues (colOf (clean_and_mask t).1.rows c), lo ≤ v ∧ v ≤ hi :=
    fun v hv => ⟨hminc.2 v hv, hmaxc.2 v hv⟩
  have hs0 : ∀ v ∈ someValues (colOf (sortRows (clean_and_mask t).1.rows) c),
      lo ≤ v ∧ v ≤ hi := by
    intro v hv
    exact hb v ((someValues_perm (colOf_sortRows_perm _ _)).mem_iff.mp hv)
  have hs1 := stage1_bounds hs0
  have hs2 := stage2_bounds hs1
  have hs3 := stage3_bounds hs2
  have hfin : ∀ v ∈ someValues (colOf (impute_data (clean_and_mask t).1).1.rows c),
      lo ≤ v ∧ v ≤ hi := by
    show ∀ v ∈ someValues (colOf (imputeLoop (clean_and_mask t).1.header IMPUTE_COLUMNS
      (sortRows (clean_and_mask t).1.rows)).1 c), _
    exact imputeLoop_invariant (clean_and_mask t).1.header
      (fun col => ∀ v ∈ someValues col, lo ≤ v ∧ v ≤ hi) c
      (fun rs h => imputeCol_bounds h) IMPUTE_COLUMNS _ hs0
  refine ⟨hs1, hs2, hs3, hfin, ?_, ?_, ?_⟩
  · intro p v hv
    exact cellAt_of_forall₂_keepsKnown (stage1_keepsKnown c _) hv
  · intro p v hv
    exact cellAt_of_forall₂_keepsKnown (stage2_keepsKnown c _) hv
  · intro p v hv
    exact cellAt_of_forall₂_keepsKnown (stage3_keepsKnown c _) hv

set_option maxRecDepth 8000 in
theorem C10_witness :
    (∀ v ∈ someValues (colOf
        (stage1 "lst_celsius" (sortRows (clean_and_mask tblW).1.rows)) "lst_celsius"),
      (20 : ℚ) ≤ v ∧ v ≤ (20 : ℚ)) ∧
    (∀ v ∈ someValues (colOf
        (stage2 "lst_celsius" (stage1 "lst_celsius"
          (sortRows (clean_and_mask tblW).1.rows))) "lst_celsius"),
      (20 : ℚ) ≤ v ∧ v ≤ (20 : ℚ)) ∧
    (∀ v ∈ someValues (colOf
        (stage3 "lst_celsius" (stage2 "lst_celsius" (stage1 "lst_celsius"
          (sortRows (clean_and_mask tblW).1.rows)))) "lst_celsius"),
      (20 : ℚ) ≤ v ∧ v ≤ (20 : ℚ)) ∧
    (∀ v ∈ someValues (colOf (impute_data (clean_and_mask tblW).1).1.rows "lst_celsius"),
      (20 : ℚ) ≤ v ∧ v ≤ (20 : ℚ)) ∧
    (∀ (p : Nat) (v : ℚ),
      cellAt (sortRows (clean_and_mask tblW).1.rows) "lst_celsius" p = some v →
      cellAt (stage1 "lst_celsius" (sortRows (clean_and_mask tblW).1.rows))
        "lst_celsius" p = some v) ∧
    (∀ (p : Nat) (v : ℚ),
      cellAt (stage1 "lst_celsius" (sortRows (clean_and_mask tblW).1.rows))
        "lst_celsius" p = some v →
      cellAt (stage2 "lst_celsius" (stage1 "lst_celsius"
        (sortRows (clean_and_mask tblW).1.rows))) "lst_celsius" p = some v) ∧
    (∀ (p : Nat) (v : ℚ),
      cellAt (stage2 "lst_celsius" (stage1 "lst_celsius"
        (sortRows (clean_and_mask tblW).1.rows))) "lst_celsius" p = some v →
      cellAt (stage3 "lst_celsius" (stage2 "lst_celsius" (stage1 "lst_celsius"
        (sortRows (clean_and_mask tblW).1.rows)))) "lst_celsius" p = some v) :=
  C10_imputed_within_bounds tblW "lst_celsius" 20 20
    (by with_unfolding_all decide) (by with_unfolding_all decide)

theorem getElem?_eq_some_none {xs : List Cell} {p : Nat} (hp : p < xs.length)
    (h : cellAtL xs p = none) : xs[p]? = some none := by
  unfold cellAtL at h
  rw [List.getElem?_eq_getElem hp] at h ⊢
  simp only [Option.getD_some] at h
  rw [h]

theorem interpAt_gap_both {xs : List Cell} {p i j : Nat} {a b : ℚ}
    (hx : xs[p]? = some none) (hfp : findPrev xs p = some (i, a))
    (hfn : findNext xs p = some (j, b)) :
    interpAt xs p =
      some (a + (b - a) * ((p : ℚ) - (i : ℚ)) / ((j : ℚ) - (i : ℚ))) := by
  unfold interpAt
  rw [hx, hfp, hfn]

theorem interpAt_gap_before {xs : List Cell} {p i : Nat} {a : ℚ}
    (hx : xs[p]? = some none) (hfp : findPrev xs p = some (i, a))
    (hfn : findNext xs p = none) : interpAt xs p = some a := by
  unfold interpAt
  rw [hx, hfp, hfn]

theorem interpAt_gap_after {xs : List Cell} {p j : Nat} {b : ℚ}
    (hx : xs[p]? = some none) (hfp : findPrev xs p = none)
    (hfn : findNext xs p = some (j, b)) : interpAt xs p = some b := by
  unfold interpAt
  rw [hx, hfp, hfn]


set_option maxRecDepth 8000 in
/-- C1 (counterexample): in a date-sorted grid group with unevenly spaced
dates 0, 1, 3 and values 0, missing, 3, Stage 1 fills the gap with 3/2 —
pandas `method='linear'` ignores the dates and treats the values as
equally spaced — while the claim's linear interpolation between the
nearest non-missing temporal neighbours *in time* yields 1 at date 1.
The claim as stated is therefore false on this input. -/
theorem C1_counterexample :
    groupRuns (sortRows tblX.rows) = [[rowX0, rowX1, rowX3]] ∧
    cellAt (stage1 "ndvi" (sortRows tblX.rows)) "ndvi" 1 = some (3 / 2) ∧
    timeWeightedFill [rowX0, rowX1, rowX3] "ndvi" 1 = some 1 ∧
    (3 / 2 : ℚ) ≠ (1 : ℚ) := by
  with_unfolding_all decide

/-- C1 (amended): Stage 1 splits the (grid, date)-sorted rows into runs of
one grid identifier each, with dates ascending inside every run, and
interpolates each run's column positionally: a known value is kept
unchanged; a gap whose nearest known entries sit at positions `i` (value
`a`, before) and `j` (value `b`, after) is filled with
`a + (b - a)·(p - i)/(j - i)` — the values are treated as equally spaced,
regardless of the dates; a gap with a nearest known entry on one side only
is filled with that value held constant; and as soon as the run has one
known value, every cell of the run is filled. -/
theorem C1_stage1_interpolation (t : Table) (c : String) :
    stage1 c (sortRows t.rows) =
      (groupRuns (sortRows t.rows)).flatMap (fillGroup c) ∧
    ∀ g ∈ groupRuns (sortRows t.rows),
      (∃ n, ∀ a ∈ g, a.grid_id = n) ∧
      List.Pairwise (fun a b => a.date ≤ b.date) g ∧
      ∀ p, p < g.length →
        (∀ v : ℚ, cellAtL (colOf g c) p = some v →
            cellAtL (colOf (fillGroup c g) c) p = some v) ∧
        ((∃ q, ∃ w : ℚ, cellAtL (colOf g c) q = some w) →
            (cellAtL (colOf (fillGroup c g) c) p).isSome) ∧
        (cellAtL (colOf g c) p = none →
          (∀ (i j : Nat) (a b : ℚ), i < p → p < j →
              cellAtL (colOf g c) i = some a → cellAtL (colOf g c) j = some b →
              (∀ q, i < q → q < j → q ≠ p → cellAtL (colOf g c) q = none) →
              cellAtL (colOf (fillGroup c g) c) p =
                some (a + (b - a) * ((p : ℚ) - (i : ℚ)) / ((j : ℚ) - (i : ℚ)))) ∧
          (∀ (i : Nat) (a : ℚ), i < p → cellAtL (colOf g c) i = some a →
              (∀ q, i < q → q ≠ p → cellAtL (colOf g c) q = none) →
              cellAtL (colOf (fillGroup c g) c) p = some a) ∧
          (∀ (j : Nat) (b : ℚ), p < j → cellAtL (colOf g c) j = some b →
              (∀ q, q < j → q ≠ p → cellAtL (colOf g c) q = none) →
              cellAtL (colOf (fillGroup c g) c) p = some b)) := by
  refine ⟨rfl, ?_⟩
  intro g hg
  refine ⟨groupRuns_grid_eq _ g hg,
    groupRuns_pairwise_date (sortRows_sorted _) g hg, ?_⟩
  intro p hp
  have hplen : p < (colOf g c).length := by rwa [length_colOf]
  have hcell : cellAtL (colOf (fillGroup c g) c) p = interpAt (colOf g c) p := by
    rw [colOf_fillGroup_self]
    exact cellAtL_interpolateBoth hplen
  refine ⟨?_, ?_, ?_⟩
  · intro v hv
    rw [hcell]
    exact interpAt_known hv
  · rintro ⟨q, w, hq⟩
    rw [hcell]
    exact interpAt_isSome hplen hq
  · intro hmiss
    have hxp : (colOf g c)[p]? = some none := getElem?_eq_some_none hplen hmiss
    refine ⟨?_, ?_, ?_⟩
    · intro i j a b hip hpj hia hjb hgap
      have hfp : findPrev (colOf g c) p = some (i, a) :=
        findPrev_eq_some_iff.mpr
          ⟨hip, hia, fun q h1 h2 => hgap q h1 (by omega) (by omega)⟩
      have hfn : findNext (colOf g c) p = some (j, b) :=
        findNext_eq_some_iff.mpr
          ⟨hpj, hjb, fun q h1 h2 => hgap q (by omega) h2 (by omega)⟩
      rw [hcell]
      exact interpAt_gap_both hxp hfp hfn
    · intro i a hip hia hgap
      have hfp : findPrev (colOf g c) p = some (i, a) :=
        findPrev_eq_some_iff.mpr
          ⟨hip, hia, fun q h1 h2 => hgap q h1 (by omega)⟩
      have hfn : findNext (colOf g c) p = none :=
        findNext_eq_none_iff.mpr fun q hq => hgap q (by omega) (by omega)
      rw [hcell]
      exact interpAt_gap_before hxp hfp hfn
    · intro j b hpj hjb hgap
      have hfp : findPrev (colOf g c) p = none :=
        findPrev_eq_none_iff.mpr fun q hq => hgap q (by omega) (by omega)
      have hfn : findNext (colOf g c) p = some (j, b) :=
        findNext_eq_some_iff.mpr
          ⟨hpj, hjb, fun q h1 h2 => hgap q h2 (by omega)⟩
      rw [hcell]
      exact interpAt_gap_after hxp hfp hfn


set_option maxRecDepth 8000 in
theorem C1_witness :
    cellAtL (colOf (fillGroup "ndvi" [rowY0, rowY1, rowY2]) "ndvi") 1 =
      some ((20 : ℚ) + ((24 : ℚ) - 20) * ((1 : ℚ) - ((0 : Nat) : ℚ)) /
        (((2 : Nat) : ℚ) - ((0 : Nat) : ℚ))) :=
  ((((C1_stage1_interpolation tblY "ndvi").2 [rowY0, rowY1, rowY2]
      (by with_unfolding_all decide)).2.2 1 (by decide)).2.2
    (by with_unfolding_all decide)).1 0 2 20 24 (by decide) (by decide)
    (by with_unfolding_all decide) (by with_unfolding_all decide)
    (fun q h1 h2 h3 => by omega)
